import Mathlib

/-!
# SmartBracelets: pairing and liveness protocol of the child's and the parent's bracelet

Shallow embedding of `code/child-bracelet.c` and `code/parent-bracelet.c`.

Modelling conventions.

* A C string is the list of the characters that precede its terminating NUL.
  The payload handed to a receive callback is the C string found at
  `packetbuf_dataptr()`, which is how both programs read it.  `strcmp(a, b) == 0`
  is therefore equality of lists.  Capacities of the fixed buffers (`message[40]`,
  `child_coordinates[40]`, `received_key[KEY_DIMENSION]`) are not modelled.
* The file-scope variables of each program are the fields of its `State`.  Every
  call into the Rime stack or to `printf` is appended to the field `out`, in
  program order.
* `project-conf.h` (which defines `PRODUCT_KEY` and `KEY_DIMENSION`) and the
  platform constants `CLOCK_SECOND` and `linkaddr_node_addr` are parameters,
  gathered in `Conf`.
* Time is the value of the platform clock, in clock ticks, handed to every
  handler that arms a timer.
* `random_rand()` is external: the values it returns are inputs of the handler
  that draws them.  The loop of `read_status` runs over a finite list of draws and
  yields `none` when the list is used up before a candidate is accepted.
* The parent's `recv_uc` passes the results of `strtok` on without testing them for
  NULL.  Such a use is undefined behaviour; it is modelled by the outcome
  `Result.fault`, which carries the state reached at that point.
* Events are delivered one at a time and handled to completion.  A run is a finite
  list of events whose handlers all return.  `step` hands every packet to the
  receive callback, whether the connection is open or not, so the runs of the model
  include those of the programs; `broadcast_delivery` is the reception as Rime
  performs it, which drops a broadcast once `broadcast_close` has been called.
* A ctimer callback runs when its timer expires.  `Parent.idle_until` lets the
  time pass with no other event and runs the callback at each expiration time.
-/

namespace SmartBracelets

/-- C string: the characters before the terminating NUL. -/
abbrev Str := List Char

/-- Rime address `linkaddr_t`: the two bytes `u8[0]`, `u8[1]`. -/
structure linkaddr_t where
  u8_0 : Nat
  u8_1 : Nat
  deriving DecidableEq, Repr

/-- The address `linkaddr_null`. -/
def linkaddr_null : linkaddr_t := ⟨0, 0⟩

/-- The call `linkaddr_cmp(a, b)`: non-zero exactly when the two addresses are equal. -/
def linkaddr_cmp (a b : linkaddr_t) : Bool := a.u8_0 == b.u8_0 && a.u8_1 == b.u8_1

/-- Contiki `struct timer`: it expires at `start + interval`. -/
structure timer where
  start : Nat
  interval : Nat
  deriving DecidableEq, Repr

/-- Expiration time of a timer. -/
def timer.expiry (t : timer) : Nat := t.start + t.interval

/-- The call `etimer_set(&t, interval)` / `ctimer_set(&t, interval, ..)` at time `now`. -/
def timer_set (now interval : Nat) : timer := ⟨now, interval⟩

/-- The call `ctimer_reset(&t)`: restart from the previous expiration time. -/
def timer_reset (t : timer) : timer := ⟨t.start + t.interval, t.interval⟩

/-- Constants that the two programs take from `project-conf.h` and from the platform. -/
structure Conf where
  PRODUCT_KEY : Str
  KEY_DIMENSION : Nat
  CLOCK_SECOND : Nat
  linkaddr_node_addr : linkaddr_t
  deriving DecidableEq, Repr

/-- Everything a handler does towards the outside: Rime calls and `printf` lines. -/
inductive Output where
  | unicast_send (dest : linkaddr_t) (payload : Str)
  | broadcast_send (payload : Str)
  | broadcast_close
  | printf_bracelet_found
  | printf_operation_starts
  | printf_broadcast_received (sender : linkaddr_t) (received_key : Str)
  | printf_payload (payload : Str)
  | printf_unicast_received (sender : linkaddr_t) (payload : Str)
  | printf_found_by
  | printf_message_sent (dest : linkaddr_t)
  | printf_pairing_starts
  | printf_searching (connect_attempt : Nat) (key : Str)
  | printf_FALL (coordinates : Str)
  | printf_MISSING (coordinates : Str)
  deriving DecidableEq, Repr

def STATE_PAIRING : Nat := 0
def STATE_OPERATION : Nat := 1
def PAIRING_TIMER : Nat := 5
def OPERATION_TIMER : Nat := 10
def MISSING_TIMER : Nat := 60

def STOP_PAIRING : Str := "FOUND".toList
def STANDING : Str := "STANDING".toList
def WALKING : Str := "WALKING".toList
def RUNNING : Str := "RUNNING".toList
def FALLING : Str := "FALLING".toList

/-- Digits of `n` in base ten, least significant first; `fuel` bounds the number of digits. -/
def decimal_rev : Nat → Nat → List Char
  | 0, _ => []
  | fuel + 1, n =>
    Char.ofNat (48 + n % 10) :: (if n / 10 = 0 then [] else decimal_rev fuel (n / 10))

/-- Conversion of a natural number printed by `%d`. -/
def decimal (n : Nat) : Str := (decimal_rev (n + 1) n).reverse

/-- Conversion `%d` of `printf`. -/
def format_d (i : Int) : Str :=
  if i < 0 then '-' :: decimal i.natAbs else decimal i.natAbs

/-- The bytes `packetbuf_copyfrom(PRODUCT_KEY, KEY_DIMENSION)` puts on the air, read as a
C string by the receiver: the first `KEY_DIMENSION` bytes of the literal, up to its NUL. -/
def key_packet (conf : Conf) : Str := conf.PRODUCT_KEY.take conf.KEY_DIMENSION

/-! ## The child's bracelet (`code/child-bracelet.c`) -/

namespace Child

/-- The array `counter_status[4]`. -/
structure counters where
  c0 : Nat
  c1 : Nat
  c2 : Nat
  c3 : Nat
  deriving DecidableEq, Repr

/-- Read `counter_status[i]`, for `i` in `0..3`. -/
def counters.get (c : counters) (i : Nat) : Nat :=
  match i with
  | 0 => c.c0
  | 1 => c.c1
  | 2 => c.c2
  | _ => c.c3

/-- The statement `counter_status[i]++`, for `i` in `0..3`. -/
def counters.incr (c : counters) (i : Nat) : counters :=
  match i with
  | 0 => { c with c0 := c.c0 + 1 }
  | 1 => { c with c1 := c.c1 + 1 }
  | 2 => { c with c2 := c.c2 + 1 }
  | _ => { c with c3 := c.c3 + 1 }

/-- File-scope variables of the child's bracelet, and the trace of its outputs. -/
structure State where
  state : Nat
  et_operation : Option timer
  et_pairing : Option timer
  connect_attempt : Nat
  addr : linkaddr_t
  broadcast : Bool
  message : Str
  counter_status : counters
  status_counter : Nat
  out : List Output
  deriving DecidableEq, Repr

/-- The table `child_status[4]` as filled by `init_config`. -/
def child_status (index : Nat) : Str :=
  match index with
  | 0 => STANDING
  | 1 => WALKING
  | 2 => RUNNING
  | _ => FALLING

/-- Append one output to the trace. -/
def emit (s : State) (o : Output) : State := { s with out := s.out ++ [o] }

def start_operation_mode (conf : Conf) (s : State) : State :=
  let s := emit s Output.printf_bracelet_found
  let s := if !linkaddr_cmp s.addr conf.linkaddr_node_addr then
      emit s (Output.unicast_send s.addr s.message)
    else s
  let s := { emit s Output.broadcast_close with broadcast := false }
  let s := { s with state := STATE_OPERATION }
  emit s Output.printf_operation_starts

/-- The callback of the broadcast connection. `received_key` is the payload as `sprintf`
copies it, not cut at `KEY_DIMENSION` bytes. The `if` of the source has no braces: it
governs the assignment to `addr.u8[0]` only. -/
def broadcast_recv (conf : Conf) (s : State) (frm : linkaddr_t) (payload : Str) : State :=
  let received_key : Str := payload
  let s := emit s (Output.printf_broadcast_received frm received_key)
  let s := if received_key = conf.PRODUCT_KEY then
      { s with addr := { s.addr with u8_0 := frm.u8_0 } }
    else s
  let s := { s with addr := { s.addr with u8_1 := frm.u8_1 } }
  start_operation_mode conf s

def check_address (s : State) (frm : linkaddr_t) : Nat :=
  if frm.u8_0 = s.addr.u8_0 ∧ frm.u8_1 = s.addr.u8_1 then 1 else 0

def recv_uc (s : State) (frm : linkaddr_t) (payload : Str) : State :=
  if check_address s frm = 1 ∧ s.state = STATE_OPERATION then
    emit s (Output.printf_payload payload)
  else if s.state = STATE_PAIRING then
    let s := emit s (Output.printf_unicast_received frm payload)
    if payload = STOP_PAIRING then
      let s := { emit s Output.broadcast_close with broadcast := false }
      let s := emit s Output.printf_found_by
      let s := { s with addr := { s.addr with u8_0 := frm.u8_0 } }
      let s := { s with addr := { s.addr with u8_1 := frm.u8_1 } }
      let s := { s with state := STATE_OPERATION }
      emit s Output.printf_operation_starts
    else s
  else s

/-- The callback `sent_uc`; `dest` is `packetbuf_addr(PACKETBUF_ADDR_RECEIVER)`. -/
def sent_uc (s : State) (dest : linkaddr_t) : State :=
  if linkaddr_cmp dest linkaddr_null then s
  else emit s (Output.printf_message_sent dest)

def reset_probabilities (s : State) : State :=
  { s with status_counter := 0, counter_status := ⟨1, 1, 1, 1⟩ }

def init_config (conf : Conf) (now : Nat) (s : State) : State :=
  let s := { s with connect_attempt := 1 }
  let s := emit s Output.printf_pairing_starts
  let s := { s with state := STATE_PAIRING }
  let s := { s with et_pairing := some (timer_set now (conf.CLOCK_SECOND * PAIRING_TIMER)) }
  reset_probabilities s

/-- One iteration of the `while` loop of `read_status` with `random_rand()` returning `r`:
the index drawn, the value of `probabilistically_valid`, and the state after the iteration. -/
def read_status_iter (s : State) (r : Nat) : Nat × Bool × State :=
  let index := r % 4
  let (valid, s) :=
    if s.counter_status.get index % 4 ≠ 0 ∧ index ≠ 3 then
      (true, { s with counter_status := s.counter_status.incr index })
    else if s.counter_status.get 3 % 2 ≠ 0 then
      (true, { s with counter_status := s.counter_status.incr index })
    else (false, s)
  let s := if s.status_counter % 10 = 0 then reset_probabilities s else s
  (index, valid, s)

/-- The `while` loop of `read_status`; `draws` are the successive values of `random_rand()`.
The result is `none` when the loop has not stopped after all of `draws`. -/
def read_status_loop (s : State) : List Nat → Option (Nat × State)
  | [] => none
  | r :: draws =>
    match read_status_iter s r with
    | (index, true, s) => some (index, s)
    | (_, false, s) => read_status_loop s draws

/-- The function `read_status`: the index whose name is returned, and the state. -/
def read_status (s : State) (draws : List Nat) : Option (Nat × State) :=
  let s := { s with status_counter := s.status_counter + 1 }
  read_status_loop s draws

/-- The string `sprintf(message, "INFO:%s,X:%d,Y:%d", status, x, y)` builds. -/
def status_message (status : Str) (x y : Int) : Str :=
  "INFO:".toList ++ status ++ ",X:".toList ++ format_d x ++ ",Y:".toList ++ format_d y

/-- The function `state_machine` at time `now`; in `STATE_OPERATION`, `draws` are the values
`random_rand()` returns inside `read_status` and `x`, `y` the two values printed by `%d`. -/
def state_machine (conf : Conf) (now : Nat) (s : State) (draws : List Nat) (x y : Int) :
    Option State :=
  if s.state = STATE_PAIRING then
    let s := emit s (Output.broadcast_send (key_packet conf))
    let s := emit s (Output.printf_searching s.connect_attempt conf.PRODUCT_KEY)
    let s := { s with connect_attempt := (s.connect_attempt + 1) % 256 }
    some { s with et_pairing := some (timer_set now (conf.CLOCK_SECOND * PAIRING_TIMER)) }
  else if s.state = STATE_OPERATION then
    match read_status s draws with
    | none => none
    | some (index, s) =>
      let s := { s with message := status_message (child_status index) x y }
      let s := if !linkaddr_cmp s.addr conf.linkaddr_node_addr then
          emit s (Output.unicast_send s.addr s.message)
        else s
      some { s with et_operation := some (timer_set now (conf.CLOCK_SECOND * OPERATION_TIMER)) }
  else some s

/-- Variables as the C initialisers leave them when the program is loaded. -/
def boot : State :=
  { state := 0, et_operation := none, et_pairing := none, connect_attempt := 0,
    addr := ⟨0, 0⟩, broadcast := false, message := STOP_PAIRING,
    counter_status := ⟨0, 0, 0, 0⟩, status_counter := 0, out := [] }

/-- Start of `PROCESS_THREAD`: `init_config()`, `broadcast_open`, `unicast_open`. -/
def process_begin (conf : Conf) (now : Nat) : State :=
  { init_config conf now boot with broadcast := true }

/-- Two states that differ at most in the histogram of `read_status`. -/
def histogram_frame (s s' : State) : Prop :=
  s'.state = s.state ∧ s'.et_operation = s.et_operation ∧ s'.et_pairing = s.et_pairing ∧
  s'.connect_attempt = s.connect_attempt ∧ s'.addr = s.addr ∧ s'.broadcast = s.broadcast ∧
  s'.message = s.message ∧ s'.out = s.out

/-- Events the Contiki scheduler delivers to the process. -/
inductive Event where
  | timer (now : Nat) (draws : List Nat) (x y : Int)
  | broadcast (frm : linkaddr_t) (payload : Str)
  | unicast (frm : linkaddr_t) (payload : Str)
  | sent (dest : linkaddr_t)
  deriving DecidableEq, Repr

/-- One event handled to completion; `none` when the handler does not return. -/
def step (conf : Conf) (s : State) : Event → Option State
  | Event.timer now draws x y => state_machine conf now s draws x y
  | Event.broadcast frm payload => some (broadcast_recv conf s frm payload)
  | Event.unicast frm payload => some (recv_uc s frm payload)
  | Event.sent dest => some (sent_uc s dest)

/-- A finite sequence of events handled in order. -/
def run (conf : Conf) (s : State) : List Event → Option State
  | [] => some s
  | e :: es => (step conf s e).bind fun s => run conf s es

/-- States the process can be in between two events. -/
def Reachable (conf : Conf) (s : State) : Prop :=
  ∃ now es, run conf (process_begin conf now) es = some s

end Child

/-! ## The parent's bracelet (`code/parent-bracelet.c`) -/

/-- Outcome of a handler that passes `strtok` results on without a NULL test: `ok s` when it
returns in state `s`, `fault s` when it hands a NULL token to `sprintf`, `strcat` or
`strcmp` (undefined behaviour), `s` being the state reached at that point. -/
inductive Result (σ : Type) where
  | ok (s : σ)
  | fault (s : σ)
  deriving DecidableEq, Repr

/-- State carried by an outcome. -/
def Result.st {σ : Type} : Result σ → σ
  | Result.ok s => s
  | Result.fault s => s

/-- Whether the handler returned. -/
def Result.returns {σ : Type} : Result σ → Bool
  | Result.ok _ => true
  | Result.fault _ => false

/-- The call `strtok(str, delim)` for a one-character delimiter set, on the string the call
scans (`str`, or the saved pointer when `str` is NULL): the token returned (`none` for NULL)
and the new saved pointer, the string after the delimiter that ended the token. -/
def strtok (str : Str) (delim : Char) : Option Str × Str :=
  match str.dropWhile (· == delim) with
  | [] => (none, [])
  | c :: cs =>
    (some ((c :: cs).takeWhile (· != delim)), ((c :: cs).dropWhile (· != delim)).drop 1)

/-- The C string left at the start of the buffer after `strtok(buffer, delim)` and any
number of `strtok(NULL, delim)`: the first call overwrites the delimiter ending the first
token with NUL, later calls write further right. -/
def strtok_truncated (buffer : Str) (delim : Char) : Str :=
  buffer.takeWhile (· == delim) ++ (buffer.dropWhile (· == delim)).takeWhile (· != delim)

namespace Parent

/-- File-scope variables of the parent's bracelet, and the trace of its outputs. -/
structure State where
  state : Nat
  et_pairing : Option timer
  ct_missing : Option timer
  connect_attempt : Nat
  addr : linkaddr_t
  broadcast : Bool
  message : Str
  child_coordinates : Str
  out : List Output
  deriving DecidableEq, Repr

/-- Append one output to the trace. -/
def emit (s : State) (o : Output) : State := { s with out := s.out ++ [o] }

def start_operation_mode (conf : Conf) (s : State) : State :=
  let s := emit s Output.printf_bracelet_found
  let s := if !linkaddr_cmp s.addr conf.linkaddr_node_addr then
      emit s (Output.unicast_send s.addr s.message)
    else s
  let s := { emit s Output.broadcast_close with broadcast := false }
  let s := { s with state := STATE_OPERATION }
  emit s Output.printf_operation_starts

/-- The callback of the broadcast connection. `received_key` is the payload as `sprintf`
copies it, not cut at `KEY_DIMENSION` bytes. -/
def broadcast_recv (conf : Conf) (s : State) (frm : linkaddr_t) (payload : Str) : State :=
  let received_key : Str := payload
  let s := emit s (Output.printf_broadcast_received frm received_key)
  if received_key = conf.PRODUCT_KEY then
    let s := { s with addr := { s.addr with u8_0 := frm.u8_0 } }
    let s := { s with addr := { s.addr with u8_1 := frm.u8_1 } }
    start_operation_mode conf s
  else s

def check_address (s : State) (frm : linkaddr_t) : Nat :=
  if frm.u8_0 = s.addr.u8_0 ∧ frm.u8_1 = s.addr.u8_1 then 1 else 0

/-- The ctimer callback: print MISSING and restart the timer from its expiration time. -/
def callback (s : State) : State :=
  let s := emit s (Output.printf_MISSING s.child_coordinates)
  { s with ct_missing := s.ct_missing.map timer_reset }

/-- The function `init`, called at time `now`. -/
def init (conf : Conf) (now : Nat) (s : State) : State :=
  { s with ct_missing := some (timer_set now (conf.CLOCK_SECOND * MISSING_TIMER)) }

/-- Value of the local variable `status` of `recv_uc` after the two calls
`strtok(packetbuf_dataptr(), ":")`, `strtok(NULL, ":")`, which scan the buffer the three
earlier calls with `","` have cut after its first field. -/
def recv_uc_status (payload : Str) : Option Str :=
  let (_, save) := strtok (strtok_truncated payload ',') ':'
  (strtok save ':').1

/-- The statements of `recv_uc` after `init()` and the first `printf` in the branch taken for
a message of the paired child: the two `strtok` passes over the packet buffer. -/
def recv_uc_decode (s : State) (payload : Str) : Result State :=
  let (_, save) := strtok payload ','
  let (ptr, save) := strtok save ','
  match ptr with
  | none => Result.fault s
  | some p =>
    let s := { s with child_coordinates := p }
    let s := { s with child_coordinates := s.child_coordinates ++ ",".toList }
    let (ptr, _) := strtok save ','
    match ptr with
    | none => Result.fault s
    | some p =>
      let s := { s with child_coordinates := s.child_coordinates ++ p }
      match recv_uc_status payload with
      | none => Result.fault s
      | some status =>
        if status = FALLING then
          Result.ok (emit s (Output.printf_FALL s.child_coordinates))
        else Result.ok s

def recv_uc (conf : Conf) (now : Nat) (s : State) (frm : linkaddr_t) (payload : Str) :
    Result State :=
  if check_address s frm = 1 ∧ s.state = STATE_OPERATION then
    let s := init conf now s
    let s := emit s (Output.printf_payload payload)
    recv_uc_decode s payload
  else if s.state = STATE_PAIRING then
    let s := emit s (Output.printf_unicast_received frm payload)
    if payload = STOP_PAIRING then
      let s := { emit s Output.broadcast_close with broadcast := false }
      let s := emit s Output.printf_found_by
      let s := { s with addr := { s.addr with u8_0 := frm.u8_0 } }
      let s := { s with addr := { s.addr with u8_1 := frm.u8_1 } }
      let s := { s with state := STATE_OPERATION }
      Result.ok (emit s Output.printf_operation_starts)
    else Result.ok s
  else Result.ok s

/-- The callback `sent_uc`; `dest` is `packetbuf_addr(PACKETBUF_ADDR_RECEIVER)`. -/
def sent_uc (s : State) (dest : linkaddr_t) : State :=
  if linkaddr_cmp dest linkaddr_null then s
  else emit s (Output.printf_message_sent dest)

def init_config (conf : Conf) (now : Nat) (s : State) : State :=
  let s := { s with connect_attempt := 1 }
  let s := emit s Output.printf_pairing_starts
  let s := { s with state := STATE_PAIRING }
  { s with et_pairing := some (timer_set now (conf.CLOCK_SECOND * PAIRING_TIMER)) }

def state_machine (conf : Conf) (now : Nat) (s : State) : State :=
  if s.state = STATE_PAIRING then
    let s := emit s (Output.broadcast_send (key_packet conf))
    let s := emit s (Output.printf_searching s.connect_attempt conf.PRODUCT_KEY)
    let s := { s with connect_attempt := (s.connect_attempt + 1) % 256 }
    { s with et_pairing := some (timer_set now (conf.CLOCK_SECOND * PAIRING_TIMER)) }
  else s

/-- Variables as the C initialisers leave them when the program is loaded. -/
def boot : State :=
  { state := 0, et_pairing := none, ct_missing := none, connect_attempt := 0,
    addr := ⟨0, 0⟩, broadcast := false, message := STOP_PAIRING,
    child_coordinates := [], out := [] }

/-- Start of `PROCESS_THREAD`: `init_config()`, `broadcast_open`, `unicast_open`. -/
def process_begin (conf : Conf) (now : Nat) : State :=
  { init_config conf now boot with broadcast := true }

/-- Events the Contiki scheduler delivers to the process; `ctimer` is the expiration of
`ct_missing` observed at time `now`. -/
inductive Event where
  | timer (now : Nat)
  | broadcast (frm : linkaddr_t) (payload : Str)
  | unicast (now : Nat) (frm : linkaddr_t) (payload : Str)
  | sent (dest : linkaddr_t)
  | ctimer (now : Nat)
  deriving DecidableEq, Repr

/-- Whether the event is the reception of a unicast. -/
def is_unicast : Event → Bool
  | Event.unicast _ _ _ => true
  | _ => false

/-- Whether `ct_missing` is pending and has expired at time `now`. -/
def ctimer_expired (s : State) (now : Nat) : Bool :=
  match s.ct_missing with
  | none => false
  | some t => decide (t.expiry ≤ now)

/-- One event handled to completion; `none` when the handler faults, or when the event is
the expiration of a ctimer that is not pending or not yet due. -/
def step (conf : Conf) (s : State) : Event → Option State
  | Event.timer now => some (state_machine conf now s)
  | Event.broadcast frm payload => some (broadcast_recv conf s frm payload)
  | Event.unicast now frm payload =>
    match recv_uc conf now s frm payload with
    | Result.ok s => some s
    | Result.fault _ => none
  | Event.sent dest => some (sent_uc s dest)
  | Event.ctimer now => if ctimer_expired s now then some (callback s) else none

/-- A finite sequence of events handled in order. -/
def run (conf : Conf) (s : State) : List Event → Option State
  | [] => some s
  | e :: es => (step conf s e).bind fun s => run conf s es

/-- States the process can be in between two events. -/
def Reachable (conf : Conf) (s : State) : Prop :=
  ∃ now es, run conf (process_begin conf now) es = some s

end Parent

/-! ## Observations on traces, and sample configurations -/

/-- The unicasts of a trace, in order: destination and payload. -/
def unicasts : List Output → List (linkaddr_t × Str)
  | [] => []
  | Output.unicast_send dest payload :: os => (dest, payload) :: unicasts os
  | _ :: os => unicasts os

/-- The broadcasts of a trace, in order. -/
def broadcasts : List Output → List Str
  | [] => []
  | Output.broadcast_send payload :: os => payload :: broadcasts os
  | _ :: os => broadcasts os

/-- The FALL events of a trace, in order. -/
def falls : List Output → List Str
  | [] => []
  | Output.printf_FALL coordinates :: os => coordinates :: falls os
  | _ :: os => falls os

/-- The MISSING events of a trace, in order. -/
def missings : List Output → List Str
  | [] => []
  | Output.printf_MISSING coordinates :: os => coordinates :: missings os
  | _ :: os => missings os

/-- The token that the call number `k` (from 0) of a `strtok` sequence over `str` returns. -/
def nth_token : Nat → Str → Char → Option Str
  | 0, str, delim => (strtok str delim).1
  | k + 1, str, delim => nth_token k (strtok str delim).2 delim

/-- A status report without the expected delimiters: no second or no third field
between commas, or no status after the colon of the first field. -/
def lacks_delimiters (payload : Str) : Prop :=
  nth_token 1 payload ',' = none ∨ nth_token 2 payload ',' = none ∨
    nth_token 1 (strtok_truncated payload ',') ':' = none

instance (payload : Str) : Decidable (lacks_delimiters payload) := by
  unfold lacks_delimiters; infer_instance

/-- A child with key "K1" in a key buffer of 8 bytes, at address 1.0, on a platform with
128 clock ticks per second. -/
def conf_child_K1 : Conf := ⟨"K1".toList, 8, 128, ⟨1, 0⟩⟩

/-- A parent with key "K1" in a key buffer of 8 bytes, at address 2.0, on a platform with
128 clock ticks per second. -/
def conf_parent_K1 : Conf := ⟨"K1".toList, 8, 128, ⟨2, 0⟩⟩

/-- The parent of `conf_parent_K1` once paired with the child 1.0 by its broadcast at time 0
and having accepted the report "INFO:STANDING,X:1,Y:2" at time 10. -/
def Parent.paired_K1 : Parent.State :=
  { state := 1, et_pairing := some ⟨0, 640⟩, ct_missing := some ⟨10, 7680⟩,
    connect_attempt := 1, addr := ⟨1, 0⟩, broadcast := false, message := STOP_PAIRING,
    child_coordinates := "X:1,Y:2".toList,
    out := [Output.printf_pairing_starts,
      Output.printf_broadcast_received ⟨1, 0⟩ "K1".toList,
      Output.printf_bracelet_found,
      Output.unicast_send ⟨1, 0⟩ STOP_PAIRING,
      Output.broadcast_close,
      Output.printf_operation_starts,
      Output.printf_payload "INFO:STANDING,X:1,Y:2".toList] }

/-! ## Timed traces of the parent, and sequences of calls of `read_status` -/

/-- Whether the event is the expiration of the ctimer `ct_missing`. -/
def Parent.is_ctimer : Parent.Event → Bool
  | Parent.Event.ctimer _ => true
  | _ => false

/-- Whether the event is a tick of the process timer. -/
def Parent.is_timer : Parent.Event → Bool
  | Parent.Event.timer _ => true
  | _ => false

/-- Whether the event is a tick of the process timer. -/
def Child.is_timer : Child.Event → Bool
  | Child.Event.timer _ _ _ _ => true
  | _ => false

/-- Arrival time of the next unicast of the peer `frm` in a trace. -/
def Parent.next_report (frm : linkaddr_t) : List Parent.Event → Option Nat
  | [] => none
  | Parent.Event.unicast t a _ :: es => if a = frm then some t else Parent.next_report frm es
  | _ :: es => Parent.next_report frm es

/-- Arrival time of the last unicast of the peer `frm` in a trace, `last` when there is
none. -/
def Parent.last_report (frm : linkaddr_t) : Nat → List Parent.Event → Nat
  | last, [] => last
  | last, Parent.Event.unicast t a _ :: es =>
    if a = frm then Parent.last_report frm t es else Parent.last_report frm last es
  | last, _ :: es => Parent.last_report frm last es

/-- A trace in which the reports of the peer `frm` keep arriving: `last` is the arrival
time of the latest report so far; every report arrives no earlier than the one before it
and less than `interval` after it; an expiration of the ctimer is observed no earlier than
the latest report and no later than a report that follows it. Ticks of the process timer,
send completions and unicasts of other senders are not constrained. -/
def Parent.well_timed (interval : Nat) (frm : linkaddr_t) : Nat → List Parent.Event → Bool
  | _, [] => true
  | last, Parent.Event.unicast t a _ :: es =>
    if a = frm then
      decide (last ≤ t) && decide (t < last + interval) &&
        Parent.well_timed interval frm t es
    else Parent.well_timed interval frm last es
  | last, Parent.Event.ctimer t :: es =>
    decide (last ≤ t) &&
      (match Parent.next_report frm es with
        | some t' => decide (t ≤ t')
        | none => false) &&
      Parent.well_timed interval frm last es
  | last, Parent.Event.timer _ :: es => Parent.well_timed interval frm last es
  | last, Parent.Event.sent _ :: es => Parent.well_timed interval frm last es
  | _, Parent.Event.broadcast _ _ :: _ => false

/-- Successive calls of `read_status`, the call number `k` drawing from the list number
`k`: the indices returned, in order, and the final state; `none` when a call does not
return. -/
def Child.read_status_calls : Child.State → List (List Nat) → Option (List Nat × Child.State)
  | s, [] => some ([], s)
  | s, draws :: dss =>
    match Child.read_status s draws with
    | none => none
    | some (i, s1) =>
      match Child.read_status_calls s1 dss with
      | none => none
      | some (is, s2) => some (i :: is, s2)

/-- The state inside the loop of `read_status` after the iterations on `draws`, when all
of them leave `probabilistically_valid` at 0; `none` when one of them accepts. -/
def Child.reject_all : Child.State → List Nat → Option Child.State
  | s, [] => some s
  | s, r :: draws =>
    match Child.read_status_iter s r with
    | (_, true, _) => none
    | (_, false, s1) => Child.reject_all s1 draws

/-- Whether the loop body of `read_status`, run in state `s`, accepts the candidate
`index`. -/
def Child.accepts (s : Child.State) (index : Nat) : Bool :=
  (Child.read_status_iter s index).2.1

/-- States found at the head of the loop of `read_status`, in a call made between two
events of a run from the initial state: the counter of draws has been incremented and
some iterations have rejected their candidate. -/
def Child.in_loop (conf : Conf) (t : Child.State) : Prop :=
  ∃ (s : Child.State) (draws : List Nat), Child.Reachable conf s ∧
    Child.reject_all { s with status_counter := s.status_counter + 1 } draws = some t

/-- Sum of the four counters of the histogram. -/
def Child.counters.sum (c : Child.counters) : Nat := c.c0 + c.c1 + c.c2 + c.c3

/-- The histogram between two calls of `read_status` in a window of ten draws: at most
nine draws counted, every counter at least 1, and the counters exceed their baseline by
the number of draws counted. -/
def Child.histogram_ok (s : Child.State) : Prop :=
  s.status_counter ≤ 9 ∧ s.counter_status.sum = 4 + s.status_counter ∧
    1 ≤ s.counter_status.c0 ∧ 1 ≤ s.counter_status.c1 ∧ 1 ≤ s.counter_status.c2 ∧
    1 ≤ s.counter_status.c3

/-- The histogram at the head of the loop of `read_status`: either the draw in progress is
counted and the counters are those of the draws before it, or the tenth draw of the window
has just reset the histogram. -/
def Child.loop_ok (s : Child.State) : Prop :=
  (1 ≤ s.counter_status.c0 ∧ 1 ≤ s.counter_status.c1 ∧ 1 ≤ s.counter_status.c2 ∧
    1 ≤ s.counter_status.c3) ∧
  ((1 ≤ s.status_counter ∧ s.status_counter ≤ 10 ∧
      s.counter_status.sum = 3 + s.status_counter) ∨
    (s.status_counter = 0 ∧ s.counter_status = ⟨1, 1, 1, 1⟩))

/-- Whether the sender of a received packet, if the event is a reception, is not the null
address. -/
def Parent.sender_not_null : Parent.Event → Bool
  | Parent.Event.broadcast frm _ => !linkaddr_cmp frm linkaddr_null
  | Parent.Event.unicast _ frm _ => !linkaddr_cmp frm linkaddr_null
  | _ => true

/-! ## The transport and the clock, as far as the two programs rely on them -/

/-- Passage of time up to `upto` on the parent with no event but the expirations of
`ct_missing`: the ctimer callback runs when the timer expires, at its expiration time, as
the event `ctimer` of `step`. The result lists every firing, with its time and the outputs
it added to the trace, and gives the state reached; `fuel` bounds the number of firings. -/
def Parent.idle (conf : Conf) :
    Nat → Nat → Parent.State → List (Nat × List Output) × Parent.State
  | 0, _, s => ([], s)
  | fuel + 1, upto, s =>
    match s.ct_missing with
    | none => ([], s)
    | some t =>
      if t.expiry ≤ upto then
        match Parent.step conf s (Parent.Event.ctimer t.expiry) with
        | none => ([], s)
        | some s1 =>
          ((t.expiry, s1.out.drop s.out.length) :: (Parent.idle conf fuel upto s1).1,
            (Parent.idle conf fuel upto s1).2)
      else ([], s)

/-- Passage of time up to `upto` with no event but the expirations of `ct_missing`. A timer
with a positive interval fires at most `upto` times before `upto`, so the fuel is enough. -/
def Parent.idle_until (conf : Conf) (upto : Nat) (s : Parent.State) :
    List (Nat × List Output) × Parent.State :=
  Parent.idle conf (upto + 1) upto s

end SmartBracelets

/-! ## Theorems -/

namespace SmartBracelets

theorem linkaddr_cmp_iff (a b : linkaddr_t) : linkaddr_cmp a b = true ↔ a = b := by
  cases a; cases b; simp [linkaddr_cmp]

theorem linkaddr_cmp_of_ne {a b : linkaddr_t} (h : a ≠ b) : linkaddr_cmp a b = false := by
  cases hc : linkaddr_cmp a b
  · rfl
  · exact absurd ((linkaddr_cmp_iff a b).1 hc) h

theorem linkaddr_eta (a : linkaddr_t) : (⟨a.u8_0, a.u8_1⟩ : linkaddr_t) = a := by
  cases a; rfl

namespace Child

theorem histogram_frame_trans {a b c : State} (h1 : histogram_frame a b)
    (h2 : histogram_frame b c) : histogram_frame a c := by
  unfold histogram_frame at *
  obtain ⟨a1, a2, a3, a4, a5, a6, a7, a8⟩ := h1
  obtain ⟨b1, b2, b3, b4, b5, b6, b7, b8⟩ := h2
  exact ⟨b1.trans a1, b2.trans a2, b3.trans a3, b4.trans a4, b5.trans a5, b6.trans a6,
    b7.trans a7, b8.trans a8⟩

theorem read_status_iter_frame (s : State) (r : Nat) :
    histogram_frame s (read_status_iter s r).2.2 := by
  unfold read_status_iter histogram_frame reset_probabilities
  by_cases h1 : s.counter_status.get (r % 4) % 4 ≠ 0 ∧ r % 4 ≠ 3
  · by_cases h3 : s.status_counter % 10 = 0 <;> simp [h1, h3]
  · by_cases h2 : s.counter_status.get 3 % 2 ≠ 0
    · by_cases h3 : s.status_counter % 10 = 0 <;> simp [h1, h2, h3]
    · by_cases h3 : s.status_counter % 10 = 0 <;> simp [h1, h2, h3]

theorem read_status_loop_frame (draws : List Nat) :
    ∀ (s s' : State) (i : Nat), read_status_loop s draws = some (i, s') →
      histogram_frame s s' := by
  induction draws with
  | nil => intro s s' i h; simp [read_status_loop] at h
  | cons r draws ih =>
    intro s s' i h
    unfold read_status_loop at h
    have hf := read_status_iter_frame s r
    rcases hit : read_status_iter s r with ⟨idx, v, s1⟩
    rw [hit] at h hf
    cases v with
    | true =>
      simp at h
      rw [← h.2]; exact hf
    | false =>
      simp at h
      exact histogram_frame_trans hf (ih s1 s' i h)

theorem read_status_frame (s s' : State) (draws : List Nat) (i : Nat)
    (h : read_status s draws = some (i, s')) : histogram_frame s s' := by
  unfold read_status at h
  exact read_status_loop_frame draws { s with status_counter := s.status_counter + 1 } s' i h

/-- What a timer tick leaves alone: the state, the channel flag and the peer address always,
the message buffer while pairing. -/
theorem state_machine_fields (conf : Conf) (now : Nat) (s s' : State) (draws : List Nat)
    (x y : Int) (h : state_machine conf now s draws x y = some s') :
    s'.state = s.state ∧ s'.broadcast = s.broadcast ∧ s'.addr = s.addr ∧
      (s.state = STATE_PAIRING → s'.message = s.message) := by
  unfold state_machine at h
  by_cases hp : s.state = STATE_PAIRING
  · rw [if_pos hp] at h
    simp only [Option.some.injEq] at h
    subst h
    simp [emit]
  · rw [if_neg hp] at h
    by_cases ho : s.state = STATE_OPERATION
    · rw [if_pos ho] at h
      rcases hr : read_status s draws with _ | ⟨i, s1⟩
      · rw [hr] at h; simp at h
      · obtain ⟨f1, _, _, _, f5, f6, _, _⟩ := read_status_frame s s1 draws i hr
        rw [hr] at h
        simp only [Option.some.injEq] at h
        subst h
        refine ⟨?_, ?_, ?_, fun hq => absurd hq hp⟩
        · split_ifs <;> simp [emit, f1]
        · split_ifs <;> simp [emit, f6]
        · split_ifs <;> simp [emit, f5]
    · rw [if_neg ho] at h
      simp only [Option.some.injEq] at h
      subst h
      simp

/-- Induction over the events handled since the start of the process. -/
theorem child_run_invariant (conf : Conf) (P : State → Prop)
    (hstep : ∀ s e s', P s → step conf s e = some s' → P s') :
    ∀ (es : List Event) (s s' : State), P s → run conf s es = some s' → P s' := by
  intro es
  induction es with
  | nil => intro s s' hs h; simp [run] at h; exact h ▸ hs
  | cons e es ih =>
    intro s s' hs h
    unfold run at h
    rcases hst : step conf s e with _ | s1
    · simp [hst] at h
    · simp [hst] at h
      exact ih s1 s' (hstep s e s1 hs hst) h

/-- While the child is pairing, its message buffer still holds the marker "FOUND", and once
it operates its broadcast channel is closed. -/
theorem child_reachable_invariant (conf : Conf) (s : State) (h : Reachable conf s) :
    (s.state = STATE_PAIRING → s.message = STOP_PAIRING) ∧
      (s.state = STATE_OPERATION → s.broadcast = false) := by
  obtain ⟨now, es, hrun⟩ := h
  refine child_run_invariant conf
    (fun s => (s.state = STATE_PAIRING → s.message = STOP_PAIRING) ∧
      (s.state = STATE_OPERATION → s.broadcast = false)) ?_ es _ s ?_ hrun
  · intro s e s' hs hst
    cases e with
    | timer now draws x y =>
      obtain ⟨h1, h2, _, h4⟩ := state_machine_fields conf now s s' draws x y hst
      constructor
      · intro hp
        rw [h1] at hp
        rw [h4 hp]; exact hs.1 hp
      · intro ho
        rw [h1] at ho
        rw [h2]; exact hs.2 ho
    | broadcast frm payload =>
      simp only [step, Option.some.injEq] at hst
      subst hst
      simp [broadcast_recv, start_operation_mode, emit, STATE_OPERATION, STATE_PAIRING]
    | unicast frm payload =>
      simp only [step, Option.some.injEq] at hst
      subst hst
      unfold recv_uc
      split_ifs <;> simp_all [emit, STATE_OPERATION, STATE_PAIRING]
    | sent dest =>
      simp only [step, Option.some.injEq] at hst
      subst hst
      unfold sent_uc
      split_ifs <;> simp_all [emit]
  · simp [process_begin, init_config, reset_probabilities, emit, boot, STATE_PAIRING,
      STATE_OPERATION]

end Child

end SmartBracelets

namespace SmartBracelets

namespace Parent

/-- Induction over the events handled since the start of the process. -/
theorem parent_run_invariant (conf : Conf) (P : State → Prop)
    (hstep : ∀ s e s', P s → step conf s e = some s' → P s') :
    ∀ (es : List Event) (s s' : State), P s → run conf s es = some s' → P s' := by
  intro es
  induction es with
  | nil => intro s s' hs h; simp [run] at h; exact h ▸ hs
  | cons e es ih =>
    intro s s' hs h
    unfold run at h
    rcases hst : step conf s e with _ | s1
    · simp [hst] at h
    · simp [hst] at h
      exact ih s1 s' (hstep s e s1 hs hst) h

/-- The decoding statements of `recv_uc` touch nothing but `child_coordinates` and the
trace. -/
theorem recv_uc_decode_fields (s : State) (payload : Str) :
    (recv_uc_decode s payload).st.state = s.state ∧
    (recv_uc_decode s payload).st.addr = s.addr ∧
    (recv_uc_decode s payload).st.broadcast = s.broadcast ∧
    (recv_uc_decode s payload).st.message = s.message ∧
    (recv_uc_decode s payload).st.ct_missing = s.ct_missing ∧
    (recv_uc_decode s payload).st.et_pairing = s.et_pairing ∧
    (recv_uc_decode s payload).st.connect_attempt = s.connect_attempt := by
  unfold recv_uc_decode
  simp only
  split
  · simp [Result.st]
  · split
    · simp [Result.st]
    · split
      · simp [Result.st]
      · split_ifs <;> simp [Result.st, emit]

/-- What `recv_uc` leaves alone, and how it moves the state and the channel flag. -/
theorem recv_uc_fields (conf : Conf) (now : Nat) (s : State) (frm : linkaddr_t)
    (payload : Str) :
    (recv_uc conf now s frm payload).st.message = s.message ∧
    ((recv_uc conf now s frm payload).st.state = s.state ∧
        (recv_uc conf now s frm payload).st.broadcast = s.broadcast ∨
      s.state = STATE_PAIRING ∧
        (recv_uc conf now s frm payload).st.state = STATE_OPERATION ∧
        (recv_uc conf now s frm payload).st.broadcast = false) := by
  unfold recv_uc
  by_cases h1 : check_address s frm = 1 ∧ s.state = STATE_OPERATION
  · rw [if_pos h1]
    obtain ⟨d1, _, d3, d4, _, _, _⟩ :=
      recv_uc_decode_fields (emit (init conf now s) (Output.printf_payload payload)) payload
    simp only
    rw [d1, d3, d4]
    simp [emit, init]
  · rw [if_neg h1]
    by_cases h2 : s.state = STATE_PAIRING
    · rw [if_pos h2]
      by_cases h3 : payload = STOP_PAIRING
      · simp [h3, Result.st, emit, h2]
      · simp [h3, Result.st, emit]
    · rw [if_neg h2]
      simp [Result.st]

/-- A broadcast whose payload is not the key is only logged. -/
theorem broadcast_recv_other (conf : Conf) (s : State) (frm : linkaddr_t) (payload : Str)
    (h : payload ≠ conf.PRODUCT_KEY) :
    broadcast_recv conf s frm payload =
      emit s (Output.printf_broadcast_received frm payload) := by
  simp [broadcast_recv, h]

/-- A broadcast whose payload is the key binds the sender and starts the operation mode,
whatever the state. -/
theorem broadcast_recv_key (conf : Conf) (s : State) (frm : linkaddr_t) :
    broadcast_recv conf s frm conf.PRODUCT_KEY =
      start_operation_mode conf
        { emit s (Output.printf_broadcast_received frm conf.PRODUCT_KEY) with addr := frm } := by
  simp [broadcast_recv, emit]

/-- The parent never writes its message buffer, and once it operates its broadcast channel
is closed. -/
theorem parent_reachable_invariant (conf : Conf) (s : State) (h : Reachable conf s) :
    s.message = STOP_PAIRING ∧ (s.state = STATE_OPERATION → s.broadcast = false) := by
  obtain ⟨now, es, hrun⟩ := h
  refine parent_run_invariant conf
    (fun s => s.message = STOP_PAIRING ∧ (s.state = STATE_OPERATION → s.broadcast = false))
    ?_ es _ s ?_ hrun
  · intro s e s' hs hst
    cases e with
    | timer now =>
      simp only [step, Option.some.injEq] at hst
      subst hst
      unfold state_machine
      split_ifs <;> simp_all [emit, STATE_OPERATION, STATE_PAIRING]
    | broadcast frm payload =>
      simp only [step, Option.some.injEq] at hst
      subst hst
      by_cases hk : payload = conf.PRODUCT_KEY
      · subst hk
        rw [broadcast_recv_key]
        simp [start_operation_mode, emit, hs.1]
        split_ifs <;> simp [hs.1]
      · rw [broadcast_recv_other conf s frm payload hk]
        simpa [emit] using hs
    | unicast now frm payload =>
      simp only [step] at hst
      obtain ⟨f1, f2⟩ := recv_uc_fields conf now s frm payload
      rcases hr : recv_uc conf now s frm payload with r | r
      · rw [hr] at hst f1 f2
        simp only [Option.some.injEq] at hst
        subst hst
        simp only [Result.st] at f1 f2
        refine ⟨f1.trans hs.1, fun ho => ?_⟩
        rcases f2 with ⟨g1, g2⟩ | ⟨_, _, g3⟩
        · rw [g2]; exact hs.2 (g1 ▸ ho)
        · exact g3
      · rw [hr] at hst; simp at hst
    | sent dest =>
      simp only [step, Option.some.injEq] at hst
      subst hst
      unfold sent_uc
      split_ifs <;> simp_all [emit]
    | ctimer now =>
      simp only [step] at hst
      split_ifs at hst
      simp only [Option.some.injEq] at hst
      subst hst
      simp_all [callback, emit]
  · simp [process_begin, init_config, emit, boot, STATE_PAIRING, STATE_OPERATION]

end Parent

/-- C1 (child's half fails): in the initial PAIRING state the child 1.0 with key "K1"
receives the broadcast "WRONG" from node 2.3. The payload differs from the key, yet the
handler writes the second byte of the peer address, sends the unicast "FOUND" to 0.3,
closes the broadcast channel and enters OPERATION. -/
theorem C1_child_broadcast_recv_wrong_key_pairs :
    "WRONG".toList ≠ conf_child_K1.PRODUCT_KEY ∧
    (Child.process_begin conf_child_K1 0).state = STATE_PAIRING ∧
    (Child.process_begin conf_child_K1 0).addr = ⟨0, 0⟩ ∧
    (Child.broadcast_recv conf_child_K1 (Child.process_begin conf_child_K1 0) ⟨2, 3⟩
        "WRONG".toList).state = STATE_OPERATION ∧
    (Child.broadcast_recv conf_child_K1 (Child.process_begin conf_child_K1 0) ⟨2, 3⟩
        "WRONG".toList).addr = ⟨0, 3⟩ ∧
    (Child.broadcast_recv conf_child_K1 (Child.process_begin conf_child_K1 0) ⟨2, 3⟩
        "WRONG".toList).out = (Child.process_begin conf_child_K1 0).out ++
      [Output.printf_broadcast_received ⟨2, 3⟩ "WRONG".toList, Output.printf_bracelet_found,
        Output.unicast_send ⟨0, 3⟩ STOP_PAIRING, Output.broadcast_close,
        Output.printf_operation_starts] := by
  decide

/-- C2: for both roles, in every state reachable from `init_config` with state PAIRING (on
the parent: in every reachable state), `broadcast_recv` called with the SharedKey from a
sender other than the node itself binds both bytes of the peer address to the sender, sends
exactly one unicast, to the sender, with payload "FOUND", closes the broadcast channel and
ends in OPERATION. -/
theorem C2_broadcast_recv_key_binds_and_acknowledges (confC confP : Conf)
    (sc : Child.State) (sp : Parent.State) (a b : linkaddr_t)
    (hc : Child.Reachable confC sc) (hcs : sc.state = STATE_PAIRING)
    (ha : a ≠ confC.linkaddr_node_addr)
    (hp : Parent.Reachable confP sp)
    (hb : b ≠ confP.linkaddr_node_addr) :
    ((Child.broadcast_recv confC sc a confC.PRODUCT_KEY).addr = a ∧
      (Child.broadcast_recv confC sc a confC.PRODUCT_KEY).out = sc.out ++
        [Output.printf_broadcast_received a confC.PRODUCT_KEY, Output.printf_bracelet_found,
          Output.unicast_send a STOP_PAIRING, Output.broadcast_close,
          Output.printf_operation_starts] ∧
      (Child.broadcast_recv confC sc a confC.PRODUCT_KEY).broadcast = false ∧
      (Child.broadcast_recv confC sc a confC.PRODUCT_KEY).state = STATE_OPERATION) ∧
    ((Parent.broadcast_recv confP sp b confP.PRODUCT_KEY).addr = b ∧
      (Parent.broadcast_recv confP sp b confP.PRODUCT_KEY).out = sp.out ++
        [Output.printf_broadcast_received b confP.PRODUCT_KEY, Output.printf_bracelet_found,
          Output.unicast_send b STOP_PAIRING, Output.broadcast_close,
          Output.printf_operation_starts] ∧
      (Parent.broadcast_recv confP sp b confP.PRODUCT_KEY).broadcast = false ∧
      (Parent.broadcast_recv confP sp b confP.PRODUCT_KEY).state = STATE_OPERATION) := by
  have hmc := (Child.child_reachable_invariant confC sc hc).1 hcs
  have hmp := (Parent.parent_reachable_invariant confP sp hp).1
  have hca : linkaddr_cmp ⟨a.u8_0, a.u8_1⟩ confC.linkaddr_node_addr = false := by
    rw [linkaddr_eta]; exact linkaddr_cmp_of_ne ha
  have hcb : linkaddr_cmp ⟨b.u8_0, b.u8_1⟩ confP.linkaddr_node_addr = false := by
    rw [linkaddr_eta]; exact linkaddr_cmp_of_ne hb
  constructor
  · simp [Child.broadcast_recv, Child.start_operation_mode, Child.emit, hca, hmc, linkaddr_eta]
  · simp [Parent.broadcast_recv, Parent.start_operation_mode, Parent.emit, hcb, hmp,
      linkaddr_eta]

/-- C2 at the initial states of a child 1.0 and a parent 2.0 with key "K1", each receiving
the key from the other. -/
theorem C2_broadcast_recv_key_binds_and_acknowledges_witness :
    ((Child.broadcast_recv conf_child_K1 (Child.process_begin conf_child_K1 0) ⟨2, 0⟩
          conf_child_K1.PRODUCT_KEY).addr = ⟨2, 0⟩ ∧
      (Child.broadcast_recv conf_child_K1 (Child.process_begin conf_child_K1 0) ⟨2, 0⟩
          conf_child_K1.PRODUCT_KEY).out = (Child.process_begin conf_child_K1 0).out ++
        [Output.printf_broadcast_received ⟨2, 0⟩ conf_child_K1.PRODUCT_KEY,
          Output.printf_bracelet_found,
          Output.unicast_send ⟨2, 0⟩ STOP_PAIRING, Output.broadcast_close,
          Output.printf_operation_starts] ∧
      (Child.broadcast_recv conf_child_K1 (Child.process_begin conf_child_K1 0) ⟨2, 0⟩
          conf_child_K1.PRODUCT_KEY).broadcast = false ∧
      (Child.broadcast_recv conf_child_K1 (Child.process_begin conf_child_K1 0) ⟨2, 0⟩
          conf_child_K1.PRODUCT_KEY).state = STATE_OPERATION) ∧
    ((Parent.broadcast_recv conf_parent_K1 (Parent.process_begin conf_parent_K1 0) ⟨1, 0⟩
          conf_parent_K1.PRODUCT_KEY).addr = ⟨1, 0⟩ ∧
      (Parent.broadcast_recv conf_parent_K1 (Parent.process_begin conf_parent_K1 0) ⟨1, 0⟩
          conf_parent_K1.PRODUCT_KEY).out = (Parent.process_begin conf_parent_K1 0).out ++
        [Output.printf_broadcast_received ⟨1, 0⟩ conf_parent_K1.PRODUCT_KEY,
          Output.printf_bracelet_found,
          Output.unicast_send ⟨1, 0⟩ STOP_PAIRING, Output.broadcast_close,
          Output.printf_operation_starts] ∧
      (Parent.broadcast_recv conf_parent_K1 (Parent.process_begin conf_parent_K1 0) ⟨1, 0⟩
          conf_parent_K1.PRODUCT_KEY).broadcast = false ∧
      (Parent.broadcast_recv conf_parent_K1 (Parent.process_begin conf_parent_K1 0) ⟨1, 0⟩
          conf_parent_K1.PRODUCT_KEY).state = STATE_OPERATION) :=
  C2_broadcast_recv_key_binds_and_acknowledges conf_child_K1 conf_parent_K1
    (Child.process_begin conf_child_K1 0) (Parent.process_begin conf_parent_K1 0) ⟨2, 0⟩ ⟨1, 0⟩
    ⟨0, [], rfl⟩ (by decide) (by decide) ⟨0, [], rfl⟩ (by decide)

end SmartBracelets

namespace SmartBracelets

/-- The child's `broadcast_recv` always ends in OPERATION. -/
theorem child_broadcast_recv_state (conf : Conf) (s : Child.State) (frm : linkaddr_t)
    (payload : Str) : (Child.broadcast_recv conf s frm payload).state = STATE_OPERATION := by
  simp [Child.broadcast_recv, Child.start_operation_mode, Child.emit]

/-- The parent's `broadcast_recv` never leaves OPERATION. -/
theorem parent_broadcast_recv_state (conf : Conf) (s : Parent.State) (frm : linkaddr_t)
    (payload : Str) (h : s.state = STATE_OPERATION) :
    (Parent.broadcast_recv conf s frm payload).state = STATE_OPERATION := by
  by_cases hk : payload = conf.PRODUCT_KEY
  · subst hk
    rw [Parent.broadcast_recv_key]
    simp [Parent.start_operation_mode, Parent.emit]
  · rw [Parent.broadcast_recv_other conf s frm payload hk]
    simpa [Parent.emit] using h

end SmartBracelets

namespace SmartBracelets

/-- The parent's `recv_uc` on a message of the bound peer in OPERATION: it first rearms the
timer and logs the payload, then decodes. -/
theorem parent_recv_uc_bound (conf : Conf) (now : Nat) (s : Parent.State) (frm : linkaddr_t)
    (payload : Str) (ha : Parent.check_address s frm = 1) (hs : s.state = STATE_OPERATION) :
    Parent.recv_uc conf now s frm payload =
      Parent.recv_uc_decode
        (Parent.emit (Parent.init conf now s) (Output.printf_payload payload)) payload := by
  unfold Parent.recv_uc
  rw [if_pos ⟨ha, hs⟩]

/-- The parent's `recv_uc` in OPERATION on a message of a sender that is not the bound peer
does nothing. -/
theorem parent_recv_uc_stranger (conf : Conf) (now : Nat) (s : Parent.State)
    (frm : linkaddr_t) (payload : Str) (ha : Parent.check_address s frm ≠ 1)
    (hs : s.state = STATE_OPERATION) :
    Parent.recv_uc conf now s frm payload = Result.ok s := by
  unfold Parent.recv_uc
  rw [if_neg (fun h => ha h.1), if_neg (by rw [hs]; decide)]

/-- C4 (the parent fails): the parent 2.0, in OPERATION and bound to the child 1.0, with the
LivenessTimer pending since time 10, receives at time 100 a duplicate acknowledgment
"FOUND" from 1.0. `recv_uc` takes the branch of a message of the paired child: it calls
`init()`, which rearms the timer (start 100), then tokenizes "FOUND", which has no second
field, and hands the NULL that `strtok` returns to `sprintf`: it does not return. -/
theorem C4_parent_duplicate_found_rearms_and_faults :
    Parent.run conf_parent_K1 (Parent.process_begin conf_parent_K1 0)
      [Parent.Event.broadcast ⟨1, 0⟩ "K1".toList,
        Parent.Event.unicast 10 ⟨1, 0⟩ "INFO:STANDING,X:1,Y:2".toList] = some Parent.paired_K1 ∧
    Parent.paired_K1.state = STATE_OPERATION ∧
    Parent.check_address Parent.paired_K1 ⟨1, 0⟩ = 1 ∧
    Parent.paired_K1.ct_missing = some ⟨10, 7680⟩ ∧
    Parent.recv_uc conf_parent_K1 100 Parent.paired_K1 ⟨1, 0⟩ STOP_PAIRING =
      Parent.recv_uc_decode
        (Parent.emit (Parent.init conf_parent_K1 100 Parent.paired_K1)
          (Output.printf_payload STOP_PAIRING)) STOP_PAIRING ∧
    (Parent.init conf_parent_K1 100 Parent.paired_K1).ct_missing = some ⟨100, 7680⟩ ∧
    nth_token 1 STOP_PAIRING ',' = none ∧
    (Parent.recv_uc conf_parent_K1 100 Parent.paired_K1 ⟨1, 0⟩ STOP_PAIRING).returns = false := by
  decide

/-- C5: for both roles, in PAIRING, `recv_uc` with payload "FOUND" from a sender binds the
peer address to that sender, closes the broadcast channel, moves to OPERATION and sends
nothing; with any other payload it only logs the reception, so state and peer address are
unchanged. -/
theorem C5_recv_uc_in_pairing (conf : Conf) (now : Nat) (sc : Child.State)
    (sp : Parent.State) (a b : linkaddr_t) (payload : Str)
    (hcs : sc.state = STATE_PAIRING) (hps : sp.state = STATE_PAIRING) :
    (Child.recv_uc sc a STOP_PAIRING =
      { sc with
        addr := a, broadcast := false, state := STATE_OPERATION,
        out := sc.out ++ [Output.printf_unicast_received a STOP_PAIRING,
          Output.broadcast_close, Output.printf_found_by, Output.printf_operation_starts] }) ∧
    (payload ≠ STOP_PAIRING →
      Child.recv_uc sc a payload =
        { sc with out := sc.out ++ [Output.printf_unicast_received a payload] }) ∧
    (Parent.recv_uc conf now sp b STOP_PAIRING = Result.ok
      { sp with
        addr := b, broadcast := false, state := STATE_OPERATION,
        out := sp.out ++ [Output.printf_unicast_received b STOP_PAIRING,
          Output.broadcast_close, Output.printf_found_by, Output.printf_operation_starts] }) ∧
    (payload ≠ STOP_PAIRING →
      Parent.recv_uc conf now sp b payload = Result.ok
        { sp with out := sp.out ++ [Output.printf_unicast_received b payload] }) := by
  have hc1 : ¬ (Child.check_address sc a = 1 ∧ sc.state = STATE_OPERATION) := by
    rw [hcs]; intro h; exact absurd h.2 (by decide)
  have hp1 : ¬ (Parent.check_address sp b = 1 ∧ sp.state = STATE_OPERATION) := by
    rw [hps]; intro h; exact absurd h.2 (by decide)
  refine ⟨?_, ?_, ?_, ?_⟩
  · unfold Child.recv_uc
    rw [if_neg hc1, if_pos hcs]
    simp [Child.emit]
  · intro hne
    unfold Child.recv_uc
    rw [if_neg hc1, if_pos hcs]
    simp [Child.emit, hne]
  · unfold Parent.recv_uc
    rw [if_neg hp1, if_pos hps]
    simp [Parent.emit]
  · intro hne
    unfold Parent.recv_uc
    rw [if_neg hp1, if_pos hps]
    simp [Parent.emit, hne]

/-- C5 at the initial state of the child 1.0, acknowledged by the parent 2.0. -/
theorem C5_recv_uc_in_pairing_witness :
    (Child.recv_uc (Child.process_begin conf_child_K1 0) ⟨2, 0⟩ STOP_PAIRING).state =
        STATE_OPERATION ∧
      (Child.recv_uc (Child.process_begin conf_child_K1 0) ⟨2, 0⟩ STOP_PAIRING).addr =
        ⟨2, 0⟩ :=
  have h := (C5_recv_uc_in_pairing conf_parent_K1 0 (Child.process_begin conf_child_K1 0)
    (Parent.process_begin conf_parent_K1 0) ⟨2, 0⟩ ⟨1, 0⟩ "HELLO".toList
    (by decide) (by decide)).1
  ⟨by rw [h], by rw [h]⟩

end SmartBracelets

namespace SmartBracelets

/-- No event handler of the child leaves OPERATION. -/
theorem child_step_operation (conf : Conf) (s : Child.State) (e : Child.Event)
    (s' : Child.State) (hs : s.state = STATE_OPERATION) (h : Child.step conf s e = some s') :
    s'.state = STATE_OPERATION := by
  cases e with
  | timer now draws x y =>
    exact (Child.state_machine_fields conf now s s' draws x y h).1.trans hs
  | broadcast frm payload =>
    simp only [Child.step, Option.some.injEq] at h
    subst h
    exact child_broadcast_recv_state conf s frm payload
  | unicast frm payload =>
    simp only [Child.step, Option.some.injEq] at h
    subst h
    unfold Child.recv_uc
    have hne : ¬ s.state = STATE_PAIRING := by rw [hs]; decide
    rw [if_neg hne]
    split_ifs <;> simp [Child.emit, hs]
  | sent dest =>
    simp only [Child.step, Option.some.injEq] at h
    subst h
    unfold Child.sent_uc
    split_ifs <;> simp [Child.emit, hs]

/-- No event handler of the parent leaves OPERATION. -/
theorem parent_step_operation (conf : Conf) (s : Parent.State) (e : Parent.Event)
    (s' : Parent.State) (hs : s.state = STATE_OPERATION)
    (h : Parent.step conf s e = some s') : s'.state = STATE_OPERATION := by
  cases e with
  | timer now =>
    simp only [Parent.step, Option.some.injEq] at h
    subst h
    unfold Parent.state_machine
    rw [if_neg (by rw [hs]; decide)]
    exact hs
  | broadcast frm payload =>
    simp only [Parent.step, Option.some.injEq] at h
    subst h
    exact parent_broadcast_recv_state conf s frm payload hs
  | unicast now frm payload =>
    simp only [Parent.step] at h
    obtain ⟨_, f2⟩ := Parent.recv_uc_fields conf now s frm payload
    rcases hr : Parent.recv_uc conf now s frm payload with r | r
    · rw [hr] at h f2
      simp only [Option.some.injEq] at h
      subst h
      simp only [Result.st] at f2
      rcases f2 with ⟨g1, _⟩ | ⟨_, g2, _⟩
      · exact g1.trans hs
      · exact g2
    · rw [hr] at h; simp at h
  | sent dest =>
    simp only [Parent.step, Option.some.injEq] at h
    subst h
    unfold Parent.sent_uc
    split_ifs <;> simp [Parent.emit, hs]
  | ctimer now =>
    simp only [Parent.step] at h
    split_ifs at h
    simp only [Option.some.injEq] at h
    subst h
    simp [Parent.callback, Parent.emit, hs]

/-- Handling a sequence of events in two parts. -/
theorem child_run_append (conf : Conf) (es es' : List Child.Event) :
    ∀ s : Child.State, Child.run conf s (es ++ es') =
      (Child.run conf s es).bind fun s1 => Child.run conf s1 es' := by
  induction es with
  | nil => intro s; simp [Child.run]
  | cons e es ih =>
    intro s
    simp only [List.cons_append, Child.run]
    cases Child.step conf s e with
    | none => simp
    | some s1 => simp [ih s1]

/-- Handling a sequence of events in two parts. -/
theorem parent_run_append (conf : Conf) (es es' : List Parent.Event) :
    ∀ s : Parent.State, Parent.run conf s (es ++ es') =
      (Parent.run conf s es).bind fun s1 => Parent.run conf s1 es' := by
  induction es with
  | nil => intro s; simp [Parent.run]
  | cons e es ih =>
    intro s
    simp only [List.cons_append, Parent.run]
    cases Parent.step conf s e with
    | none => simp
    | some s1 => simp [ih s1]

/-- C6: for both roles and every finite sequence of events handled from the initial state
(timer ticks, broadcast and unicast receptions, send completions and, on the parent,
expirations of the LivenessTimer): if the state is OPERATION after the events `es`, it is
OPERATION after every longer sequence `es ++ es'`. -/
theorem C6_operation_never_reverts (confC confP : Conf) (nowC nowP : Nat)
    (esC esC' : List Child.Event) (esP esP' : List Parent.Event)
    (c c' : Child.State) (p p' : Parent.State)
    (hc : Child.run confC (Child.process_begin confC nowC) esC = some c)
    (hco : c.state = STATE_OPERATION)
    (hc' : Child.run confC (Child.process_begin confC nowC) (esC ++ esC') = some c')
    (hp : Parent.run confP (Parent.process_begin confP nowP) esP = some p)
    (hpo : p.state = STATE_OPERATION)
    (hp' : Parent.run confP (Parent.process_begin confP nowP) (esP ++ esP') = some p') :
    c'.state = STATE_OPERATION ∧ p'.state = STATE_OPERATION := by
  rw [child_run_append, hc] at hc'
  rw [parent_run_append, hp] at hp'
  exact ⟨Child.child_run_invariant confC (fun s => s.state = STATE_OPERATION)
      (fun s e s' hs h => child_step_operation confC s e s' hs h) esC' c c' hco hc',
    Parent.parent_run_invariant confP (fun s => s.state = STATE_OPERATION)
      (fun s e s' hs h => parent_step_operation confP s e s' hs h) esP' p p' hpo hp'⟩

/-- C6 on a child paired by a broadcast and a parent paired by an acknowledgment, each
handling several later events. -/
theorem C6_operation_never_reverts_witness :
    (Child.run conf_child_K1 (Child.process_begin conf_child_K1 0)
        ([Child.Event.broadcast ⟨2, 0⟩ "K1".toList] ++
          [Child.Event.timer 700 [0] 5 6, Child.Event.unicast ⟨2, 0⟩ STOP_PAIRING,
            Child.Event.sent ⟨2, 0⟩, Child.Event.broadcast ⟨3, 0⟩ "K9".toList])).map
      Child.State.state = some STATE_OPERATION ∧
    (Parent.run conf_parent_K1 (Parent.process_begin conf_parent_K1 0)
        ([Parent.Event.unicast 3 ⟨1, 0⟩ STOP_PAIRING] ++
          [Parent.Event.timer 5, Parent.Event.unicast 10 ⟨1, 0⟩ "INFO:FALLING,X:1,Y:2".toList,
            Parent.Event.ctimer 7690, Parent.Event.broadcast ⟨3, 0⟩ "K1".toList])).map
      Parent.State.state = some STATE_OPERATION := by
  have hc' : (Child.run conf_child_K1 (Child.process_begin conf_child_K1 0)
      ([Child.Event.broadcast ⟨2, 0⟩ "K1".toList] ++
        [Child.Event.timer 700 [0] 5 6, Child.Event.unicast ⟨2, 0⟩ STOP_PAIRING,
          Child.Event.sent ⟨2, 0⟩, Child.Event.broadcast ⟨3, 0⟩ "K9".toList])).isSome = true := by
    decide
  have hp' : (Parent.run conf_parent_K1 (Parent.process_begin conf_parent_K1 0)
      ([Parent.Event.unicast 3 ⟨1, 0⟩ STOP_PAIRING] ++
        [Parent.Event.timer 5, Parent.Event.unicast 10 ⟨1, 0⟩ "INFO:FALLING,X:1,Y:2".toList,
          Parent.Event.ctimer 7690, Parent.Event.broadcast ⟨3, 0⟩ "K1".toList])).isSome = true := by
    decide
  have h := C6_operation_never_reverts conf_child_K1 conf_parent_K1 0 0 _ _ _ _
    (Child.broadcast_recv conf_child_K1 (Child.process_begin conf_child_K1 0) ⟨2, 0⟩
      "K1".toList) _
    (Parent.recv_uc conf_parent_K1 3 (Parent.process_begin conf_parent_K1 0) ⟨1, 0⟩
      STOP_PAIRING).st _
    (by decide) (by decide) (Option.some_get hc').symm
    (by decide) (by decide) (Option.some_get hp').symm
  rw [← Option.some_get hc', ← Option.some_get hp']
  exact ⟨congrArg some h.1, congrArg some h.2⟩

end SmartBracelets

namespace SmartBracelets

/-- A first field that is not empty and holds no delimiter is the token `strtok` returns,
and the saved pointer is the string after the delimiter. -/
theorem strtok_field (a rest : Str) (d : Char) (hne : a ≠ []) (hd : ∀ c ∈ a, c ≠ d) :
    strtok (a ++ d :: rest) d = (some a, rest) := by
  cases a with
  | nil => exact absurd rfl hne
  | cons c cs =>
    have hc : (c == d) = false := by simpa using hd c (by simp)
    have hall : ∀ ch ∈ c :: cs, (ch != d) = true := by
      intro ch hch; simpa using hd ch hch
    unfold strtok
    rw [List.cons_append, List.dropWhile_cons, hc]
    simp only [Bool.false_eq_true, if_false]
    rw [← List.cons_append, List.takeWhile_append_of_pos hall,
      List.dropWhile_append_of_pos hall]
    simp

/-- A string that is not empty and holds no delimiter is its own single token. -/
theorem strtok_last (a : Str) (d : Char) (hne : a ≠ []) (hd : ∀ c ∈ a, c ≠ d) :
    strtok a d = (some a, []) := by
  cases a with
  | nil => exact absurd rfl hne
  | cons c cs =>
    have hc : (c == d) = false := by simpa using hd c (by simp)
    have hall : ∀ ch ∈ c :: cs, (ch != d) = true := by
      intro ch hch; simpa using hd ch hch
    unfold strtok
    rw [List.dropWhile_cons, hc]
    simp only [Bool.false_eq_true, if_false]
    rw [List.takeWhile_eq_self_iff.2 hall, List.dropWhile_eq_nil_iff.2 hall]
    rfl

/-- After tokenizing, the buffer read from its start is cut after the first field. -/
theorem strtok_truncated_field (a rest : Str) (d : Char) (hne : a ≠ [])
    (hd : ∀ c ∈ a, c ≠ d) : strtok_truncated (a ++ d :: rest) d = a := by
  cases a with
  | nil => exact absurd rfl hne
  | cons c cs =>
    have hc : (c == d) = false := by simpa using hd c (by simp)
    have hall : ∀ ch ∈ c :: cs, (ch != d) = true := by
      intro ch hch; simpa using hd ch hch
    unfold strtok_truncated
    rw [List.cons_append, List.takeWhile_cons, List.dropWhile_cons, hc]
    simp only [Bool.false_eq_true, if_false, List.nil_append]
    rw [← List.cons_append, List.takeWhile_append_of_pos hall]
    simp

/-- The digits that `%d` prints. -/
theorem decimal_rev_digit (fuel : Nat) :
    ∀ (n : Nat) (c : Char), c ∈ decimal_rev fuel n → ∃ k, k < 10 ∧ c = Char.ofNat (48 + k) := by
  induction fuel with
  | zero => intro n c h; simp [decimal_rev] at h
  | succ fuel ih =>
    intro n c h
    unfold decimal_rev at h
    rcases List.mem_cons.1 h with h | h
    · exact ⟨n % 10, Nat.mod_lt _ (by decide), h⟩
    · split_ifs at h
      · simp at h
      · exact ih _ c h

/-- A digit is neither a comma nor a colon. -/
theorem digit_not_delimiter (k : Nat) (hk : k < 10) :
    Char.ofNat (48 + k) ≠ ',' ∧ Char.ofNat (48 + k) ≠ ':' := by
  interval_cases k <;> decide

/-- The conversion `%d` prints neither a comma nor a colon. -/
theorem format_d_no_delimiter (i : Int) (c : Char) (h : c ∈ format_d i) :
    c ≠ ',' ∧ c ≠ ':' := by
  have hdec : ∀ n : Nat, c ∈ decimal n → c ≠ ',' ∧ c ≠ ':' := by
    intro n hc
    unfold decimal at hc
    obtain ⟨k, hk, rfl⟩ := decimal_rev_digit (n + 1) n c (List.mem_reverse.1 hc)
    exact digit_not_delimiter k hk
  unfold format_d at h
  split_ifs at h
  · rcases List.mem_cons.1 h with h | h
    · subst h; decide
    · exact hdec _ h
  · exact hdec _ h

end SmartBracelets

namespace SmartBracelets

/-- C7: end-to-end handshake. Child and parent start in PAIRING with distinct addresses and
the same SharedKey, which fits in `KEY_DIMENSION` bytes. The child's pairing tick sends
one broadcast; delivered to the parent's `broadcast_recv` it leaves the parent in
OPERATION, bound to the child, having sent exactly one unicast, "FOUND" to the child;
delivered to the child's `recv_uc` that unicast leaves the child in OPERATION, bound to
the parent, and the child has sent no unicast. -/
theorem C7_handshake (confC confP : Conf) (nowC nowP tick : Nat) (draws : List Nat)
    (x y : Int) (hkey : confC.PRODUCT_KEY = confP.PRODUCT_KEY)
    (hdim : confC.PRODUCT_KEY.length ≤ confC.KEY_DIMENSION)
    (hne : confC.linkaddr_node_addr ≠ confP.linkaddr_node_addr) :
    ∃ (c1 : Child.State) (packet : Str),
      Child.state_machine confC tick (Child.process_begin confC nowC) draws x y = some c1 ∧
      c1.state = STATE_PAIRING ∧
      broadcasts c1.out = [packet] ∧
      (Parent.process_begin confP nowP).state = STATE_PAIRING ∧
      (Parent.broadcast_recv confP (Parent.process_begin confP nowP)
        confC.linkaddr_node_addr packet).state = STATE_OPERATION ∧
      (Parent.broadcast_recv confP (Parent.process_begin confP nowP)
        confC.linkaddr_node_addr packet).addr = confC.linkaddr_node_addr ∧
      unicasts (Parent.broadcast_recv confP (Parent.process_begin confP nowP)
        confC.linkaddr_node_addr packet).out = [(confC.linkaddr_node_addr, STOP_PAIRING)] ∧
      (Child.recv_uc c1 confP.linkaddr_node_addr STOP_PAIRING).state = STATE_OPERATION ∧
      (Child.recv_uc c1 confP.linkaddr_node_addr STOP_PAIRING).addr =
        confP.linkaddr_node_addr ∧
      unicasts (Child.recv_uc c1 confP.linkaddr_node_addr STOP_PAIRING).out = [] := by
  have hpk : key_packet confC = confP.PRODUCT_KEY := by
    unfold key_packet
    rw [List.take_of_length_le hdim, hkey]
  have hcmp : linkaddr_cmp confC.linkaddr_node_addr confP.linkaddr_node_addr = false :=
    linkaddr_cmp_of_ne hne
  refine ⟨_, key_packet confC, rfl, rfl, ?_, rfl, ?_, ?_, ?_, ?_, ?_, ?_⟩
  · simp [Child.process_begin, Child.init_config, Child.reset_probabilities, Child.emit,
      Child.boot, broadcasts]
  · rw [hpk, Parent.broadcast_recv_key]
    simp [Parent.start_operation_mode, Parent.emit]
  · rw [hpk, Parent.broadcast_recv_key]
    simp [Parent.start_operation_mode, Parent.emit, hcmp]
  · rw [hpk, Parent.broadcast_recv_key]
    simp [Parent.start_operation_mode, Parent.emit, hcmp, Parent.process_begin,
      Parent.init_config, Parent.boot, unicasts]
  · simp [Child.recv_uc, Child.process_begin, Child.init_config, Child.reset_probabilities,
      Child.emit, Child.boot, Child.check_address, STATE_PAIRING, STATE_OPERATION]
  · simp [Child.recv_uc, Child.process_begin, Child.init_config, Child.reset_probabilities,
      Child.emit, Child.boot, Child.check_address, STATE_PAIRING, STATE_OPERATION,
      linkaddr_eta]
  · simp [Child.recv_uc, Child.process_begin, Child.init_config, Child.reset_probabilities,
      Child.emit, Child.boot, Child.check_address, STATE_PAIRING, STATE_OPERATION, unicasts]

/-- C7 for the child 1.0 and the parent 2.0 with key "K1". -/
theorem C7_handshake_witness :
    ∃ (c1 : Child.State) (packet : Str),
      Child.state_machine conf_child_K1 640 (Child.process_begin conf_child_K1 0) [] 0 0 =
        some c1 ∧
      c1.state = STATE_PAIRING ∧
      broadcasts c1.out = [packet] ∧
      (Parent.process_begin conf_parent_K1 0).state = STATE_PAIRING ∧
      (Parent.broadcast_recv conf_parent_K1 (Parent.process_begin conf_parent_K1 0)
        conf_child_K1.linkaddr_node_addr packet).state = STATE_OPERATION ∧
      (Parent.broadcast_recv conf_parent_K1 (Parent.process_begin conf_parent_K1 0)
        conf_child_K1.linkaddr_node_addr packet).addr = conf_child_K1.linkaddr_node_addr ∧
      unicasts (Parent.broadcast_recv conf_parent_K1 (Parent.process_begin conf_parent_K1 0)
        conf_child_K1.linkaddr_node_addr packet).out =
          [(conf_child_K1.linkaddr_node_addr, STOP_PAIRING)] ∧
      (Child.recv_uc c1 conf_parent_K1.linkaddr_node_addr STOP_PAIRING).state =
        STATE_OPERATION ∧
      (Child.recv_uc c1 conf_parent_K1.linkaddr_node_addr STOP_PAIRING).addr =
        conf_parent_K1.linkaddr_node_addr ∧
      unicasts (Child.recv_uc c1 conf_parent_K1.linkaddr_node_addr STOP_PAIRING).out = [] :=
  C7_handshake conf_child_K1 conf_parent_K1 0 0 640 [] 0 0 (by decide) (by decide) (by decide)

end SmartBracelets

namespace SmartBracelets

/-- The four status names are not empty and hold neither a comma nor a colon. -/
theorem status_name_clean (status : Str)
    (h : status ∈ [STANDING, WALKING, RUNNING, FALLING]) :
    status ≠ [] ∧ (∀ c ∈ status, c ≠ ',') ∧ (∀ c ∈ status, c ≠ ':') := by
  simp only [List.mem_cons, List.mem_singleton, List.not_mem_nil, or_false] at h
  rcases h with h | h | h | h <;> subst h <;> decide

/-- The report the child builds, cut into its three fields. -/
theorem status_message_fields (status : Str) (x y : Int) :
    Child.status_message status x y =
      ("INFO".toList ++ ':' :: status) ++ ',' ::
        (("X:".toList ++ format_d x) ++ ',' :: ("Y:".toList ++ format_d y)) := by
  simp [Child.status_message]

/-- C8: round trip from the child's encoder to the parent's decoder. For every status name
among STANDING, WALKING, RUNNING, FALLING and all integers x, y, when the parent is in
OPERATION and `recv_uc` receives from its bound peer the report "INFO:status,X:x,Y:y"
the child builds, it returns, the decoded status is that status, `child_coordinates`
becomes exactly "X:x,Y:y", the LivenessTimer is rearmed, and one FALL event with that
position is emitted when the status is FALLING and none otherwise; this for every earlier
content of the state. -/
theorem C8_status_report_round_trip (conf : Conf) (now : Nat) (s : Parent.State)
    (frm : linkaddr_t) (status : Str) (x y : Int)
    (hst : status ∈ [STANDING, WALKING, RUNNING, FALLING])
    (hs : s.state = STATE_OPERATION) (ha : Parent.check_address s frm = 1) :
    Parent.recv_uc_status (Child.status_message status x y) = some status ∧
    Parent.recv_uc conf now s frm (Child.status_message status x y) = Result.ok
      { s with
        ct_missing := some (timer_set now (conf.CLOCK_SECOND * MISSING_TIMER)),
        child_coordinates := "X:".toList ++ format_d x ++ ",Y:".toList ++ format_d y,
        out := s.out ++ [Output.printf_payload (Child.status_message status x y)] ++
          (if status = FALLING then
            [Output.printf_FALL ("X:".toList ++ format_d x ++ ",Y:".toList ++ format_d y)]
          else []) } := by
  obtain ⟨hne, hcomma, hcolon⟩ := status_name_clean status hst
  have hinfo : ∀ c ∈ "INFO".toList ++ ':' :: status, c ≠ ',' := by
    intro c hc
    rcases List.mem_append.1 hc with h | h
    · exact (by decide : ∀ c ∈ "INFO".toList, c ≠ ',') c h
    · rcases List.mem_cons.1 h with h | h
      · subst h; decide
      · exact hcomma c h
  have hx : ∀ c ∈ "X:".toList ++ format_d x, c ≠ ',' := by
    intro c hc
    rcases List.mem_append.1 hc with h | h
    · exact (by decide : ∀ c ∈ "X:".toList, c ≠ ',') c h
    · exact (format_d_no_delimiter x c h).1
  have hy : ∀ c ∈ "Y:".toList ++ format_d y, c ≠ ',' := by
    intro c hc
    rcases List.mem_append.1 hc with h | h
    · exact (by decide : ∀ c ∈ "Y:".toList, c ≠ ',') c h
    · exact (format_d_no_delimiter y c h).1
  have t1 := strtok_field ("INFO".toList ++ ':' :: status)
    (("X:".toList ++ format_d x) ++ ',' :: ("Y:".toList ++ format_d y)) ',' (by simp) hinfo
  have t2 := strtok_field ("X:".toList ++ format_d x) ("Y:".toList ++ format_d y) ','
    (by simp) hx
  have t3 := strtok_last ("Y:".toList ++ format_d y) ',' (by simp) hy
  have tr := strtok_truncated_field ("INFO".toList ++ ':' :: status)
    (("X:".toList ++ format_d x) ++ ',' :: ("Y:".toList ++ format_d y)) ',' (by simp) hinfo
  have t4 := strtok_field "INFO".toList status ':' (by decide) (by decide)
  have t5 := strtok_last status ':' hne hcolon
  have hstatus : Parent.recv_uc_status (Child.status_message status x y) = some status := by
    unfold Parent.recv_uc_status
    rw [status_message_fields, tr, t4]
    simp only [t5]
  refine ⟨hstatus, ?_⟩
  rw [parent_recv_uc_bound conf now s frm _ ha hs]
  unfold Parent.recv_uc_decode
  rw [hstatus]
  rw [status_message_fields, t1]
  simp only [t2, t3]
  by_cases hf : status = FALLING
  · simp [hf, Parent.emit, Parent.init]
  · simp [hf, Parent.emit, Parent.init]

/-- C8 on the report "INFO:STANDING,X:12345,Y:6789" received by the paired parent
`Parent.paired_K1` at time 100: the position becomes "X:12345,Y:6789", no FALL. -/
theorem C8_status_report_round_trip_witness :
    Child.status_message STANDING 12345 6789 = "INFO:STANDING,X:12345,Y:6789".toList ∧
    Parent.recv_uc conf_parent_K1 100 Parent.paired_K1 ⟨1, 0⟩
        (Child.status_message STANDING 12345 6789) = Result.ok
      { Parent.paired_K1 with
        ct_missing := some ⟨100, 7680⟩,
        child_coordinates := "X:12345,Y:6789".toList,
        out := Parent.paired_K1.out ++
          [Output.printf_payload "INFO:STANDING,X:12345,Y:6789".toList] } :=
  ⟨by decide,
    (C8_status_report_round_trip conf_parent_K1 100 Parent.paired_K1 ⟨1, 0⟩ STANDING 12345
      6789 (by decide) (by decide) (by decide)).2.trans (by decide)⟩

end SmartBracelets

namespace SmartBracelets

/-- On a report without the expected delimiters the decoding statements of `recv_uc` reach
the use of a NULL token, having printed nothing. -/
theorem recv_uc_decode_lacks (s : Parent.State) (payload : Str)
    (h : lacks_delimiters payload) :
    (Parent.recv_uc_decode s payload).returns = false ∧
      (Parent.recv_uc_decode s payload).st.out = s.out := by
  unfold lacks_delimiters nth_token nth_token nth_token at h
  unfold Parent.recv_uc_decode
  rcases h1 : strtok payload ',' with ⟨t1, save1⟩
  rcases h2 : strtok save1 ',' with ⟨t2, save2⟩
  rcases h3 : strtok save2 ',' with ⟨t3, save3⟩
  rw [h1] at h
  simp only [h2, h3] at h
  simp only [h2, h3]
  cases t2 with
  | none => simp [Result.returns, Result.st]
  | some p2 =>
    cases t3 with
    | none => simp [Result.returns, Result.st]
    | some p3 =>
      have hs : Parent.recv_uc_status payload = none := by
        unfold Parent.recv_uc_status
        simpa using h
      simp [hs, Result.returns, Result.st]

/-- C9 (the code fails): the paired parent `Parent.paired_K1`, whose LivenessTimer is
pending since time 10, receives at time 100 from its bound peer the report
"INFO:FALLING,X:7", which has no third field. `recv_uc` calls `init()`, which rearms the
timer (start 100), copies the second field "X:7" over `child_coordinates`, and hands the
NULL that `strtok` returns for the third field to `strcat`: no decode error is reported,
it does not return. -/
theorem C9_parent_malformed_report_rearms_timer :
    lacks_delimiters "INFO:FALLING,X:7".toList ∧
    Parent.paired_K1.state = STATE_OPERATION ∧
    Parent.check_address Parent.paired_K1 ⟨1, 0⟩ = 1 ∧
    Parent.paired_K1.ct_missing = some ⟨10, 7680⟩ ∧
    Parent.paired_K1.child_coordinates = "X:1,Y:2".toList ∧
    Parent.recv_uc conf_parent_K1 100 Parent.paired_K1 ⟨1, 0⟩ "INFO:FALLING,X:7".toList =
      Parent.recv_uc_decode
        (Parent.emit (Parent.init conf_parent_K1 100 Parent.paired_K1)
          (Output.printf_payload "INFO:FALLING,X:7".toList)) "INFO:FALLING,X:7".toList ∧
    (Parent.init conf_parent_K1 100 Parent.paired_K1).ct_missing = some ⟨100, 7680⟩ ∧
    nth_token 1 "INFO:FALLING,X:7".toList ',' = some "X:7".toList ∧
    nth_token 2 "INFO:FALLING,X:7".toList ',' = none ∧
    (Parent.recv_uc conf_parent_K1 100 Parent.paired_K1 ⟨1, 0⟩
        "INFO:FALLING,X:7".toList).returns = false := by
  decide

end SmartBracelets

namespace SmartBracelets

/-- The MISSING events of a trace built in two parts. -/
theorem missings_append (a b : List Output) :
    missings (a ++ b) = missings a ++ missings b := by
  induction a with
  | nil => rfl
  | cons o a ih => cases o <;> simp [missings, ih]

/-- An event that is not a unicast reception leaves an unset LivenessTimer unset and emits
no MISSING event. -/
theorem parent_step_timer_unset (conf : Conf) (s : Parent.State) (e : Parent.Event)
    (s' : Parent.State) (hc : s.ct_missing = none)
    (he : Parent.is_unicast e = false)
    (h : Parent.step conf s e = some s') :
    s'.ct_missing = none ∧ missings s'.out = missings s.out := by
  cases e with
  | timer now =>
    simp only [Parent.step, Option.some.injEq] at h
    subst h
    unfold Parent.state_machine
    split_ifs <;> simp [Parent.emit, missings_append, missings, hc]
  | broadcast frm payload =>
    simp only [Parent.step, Option.some.injEq] at h
    subst h
    by_cases hk : payload = conf.PRODUCT_KEY
    · subst hk
      rw [Parent.broadcast_recv_key]
      by_cases hn : linkaddr_cmp frm conf.linkaddr_node_addr = true
      · simp [Parent.start_operation_mode, Parent.emit, missings_append, missings, hc, hn]
      · simp [Parent.start_operation_mode, Parent.emit, missings_append, missings, hc, hn]
    · rw [Parent.broadcast_recv_other conf s frm payload hk]
      simp [Parent.emit, missings_append, missings, hc]
  | unicast now frm payload => simp [Parent.is_unicast] at he
  | sent dest =>
    simp only [Parent.step, Option.some.injEq] at h
    subst h
    unfold Parent.sent_uc
    split_ifs <;> simp [Parent.emit, missings_append, missings, hc]
  | ctimer now =>
    simp [Parent.step, Parent.ctimer_expired, hc] at h

/-- While no unicast is received, an unset LivenessTimer stays unset and no MISSING event
is emitted. -/
theorem parent_run_timer_unset (conf : Conf) (es : List Parent.Event) :
    ∀ (s s' : Parent.State), s.ct_missing = none →
      (∀ e ∈ es, Parent.is_unicast e = false) →
      Parent.run conf s es = some s' →
      s'.ct_missing = none ∧ missings s'.out = missings s.out := by
  induction es with
  | nil =>
    intro s s' hc _ h
    simp only [Parent.run, Option.some.injEq] at h
    subst h
    exact ⟨hc, rfl⟩
  | cons e es ih =>
    intro s s' hc he h
    unfold Parent.run at h
    rcases hst : Parent.step conf s e with _ | s1
    · simp [hst] at h
    · simp only [hst, Option.some_bind] at h
      obtain ⟨h1, h2⟩ := parent_step_timer_unset conf s e s1 hc
        (he e (List.mem_cons_self e es)) hst
      obtain ⟨h3, h4⟩ := ih s1 s' h1 (fun e' he' => he e' (List.mem_cons_of_mem e he')) h
      exact ⟨h3, h4.trans h2⟩

/-- While the parent is pairing, its LivenessTimer has never been set. -/
theorem parent_pairing_timer_unset (conf : Conf) (s : Parent.State)
    (h : Parent.Reachable conf s) (hs : s.state = STATE_PAIRING) : s.ct_missing = none := by
  obtain ⟨now, es, hrun⟩ := h
  have key := Parent.parent_run_invariant conf
    (fun s => s.state = STATE_OPERATION ∨ s.ct_missing = none) ?_ es _ s ?_ hrun
  · rcases key with h | h
    · rw [hs] at h; exact absurd h (by decide)
    · exact h
  · intro s e s' hP hst
    rcases hP with ho | hc
    · exact Or.inl (parent_step_operation conf s e s' ho hst)
    · cases e with
      | timer t =>
        exact Or.inr (parent_step_timer_unset conf s (Parent.Event.timer t) s' hc rfl hst).1
      | broadcast a p =>
        exact Or.inr (parent_step_timer_unset conf s (Parent.Event.broadcast a p) s' hc rfl hst).1
      | sent d =>
        exact Or.inr (parent_step_timer_unset conf s (Parent.Event.sent d) s' hc rfl hst).1
      | ctimer t =>
        exact Or.inr (parent_step_timer_unset conf s (Parent.Event.ctimer t) s' hc rfl hst).1
      | unicast t a p =>
        simp only [Parent.step] at hst
        rcases hr : Parent.recv_uc conf t s a p with r | r
        · rw [hr] at hst
          simp only [Option.some.injEq] at hst
          subst hst
          unfold Parent.recv_uc at hr
          by_cases h1 : Parent.check_address s a = 1 ∧ s.state = STATE_OPERATION
          · have hso := h1.2
            have := parent_step_operation conf s (Parent.Event.unicast t a p) r hso (by
              simp only [Parent.step]
              unfold Parent.recv_uc
              rw [hr])
            exact Or.inl this
          · rw [if_neg h1] at hr
            by_cases h2 : s.state = STATE_PAIRING
            · rw [if_pos h2] at hr
              by_cases h3 : p = STOP_PAIRING
              · simp [h3] at hr
                subst hr
                exact Or.inl rfl
              · simp [h3] at hr
                subst hr
                exact Or.inr (by simpa [Parent.emit] using hc)
            · rw [if_neg h2] at hr
              simp only [Result.ok.injEq] at hr
              subst hr
              exact Or.inr hc
        · rw [hr] at hst; simp at hst
  · right
    simp [Parent.process_begin, Parent.init_config, Parent.emit, Parent.boot]

/-- C10 (fails as stated): the parent 2.0 pairs at time 0, either on the broadcast of the
SharedKey by 1.0 or on the acknowledgment "FOUND" of 1.0. In both post-pairing states the
LivenessTimer is not set, so its expiration is not an event 60 s later (7680 ticks at 128
ticks per second), and with timer ticks only no MISSING event has been emitted then. -/
theorem C10_parent_pairing_does_not_arm_liveness_timer :
    (Parent.broadcast_recv conf_parent_K1 (Parent.process_begin conf_parent_K1 0) ⟨1, 0⟩
        conf_parent_K1.PRODUCT_KEY).state = STATE_OPERATION ∧
    (Parent.broadcast_recv conf_parent_K1 (Parent.process_begin conf_parent_K1 0) ⟨1, 0⟩
        conf_parent_K1.PRODUCT_KEY).ct_missing = none ∧
    Parent.step conf_parent_K1
      (Parent.broadcast_recv conf_parent_K1 (Parent.process_begin conf_parent_K1 0) ⟨1, 0⟩
        conf_parent_K1.PRODUCT_KEY) (Parent.Event.ctimer 7680) = none ∧
    Parent.recv_uc conf_parent_K1 0 (Parent.process_begin conf_parent_K1 0) ⟨1, 0⟩
        STOP_PAIRING = Result.ok
      ((Parent.recv_uc conf_parent_K1 0 (Parent.process_begin conf_parent_K1 0) ⟨1, 0⟩
        STOP_PAIRING).st) ∧
    (Parent.recv_uc conf_parent_K1 0 (Parent.process_begin conf_parent_K1 0) ⟨1, 0⟩
        STOP_PAIRING).st.state = STATE_OPERATION ∧
    (Parent.recv_uc conf_parent_K1 0 (Parent.process_begin conf_parent_K1 0) ⟨1, 0⟩
        STOP_PAIRING).st.ct_missing = none ∧
    Parent.step conf_parent_K1
      (Parent.recv_uc conf_parent_K1 0 (Parent.process_begin conf_parent_K1 0) ⟨1, 0⟩
        STOP_PAIRING).st (Parent.Event.ctimer 7680) = none ∧
    (Parent.run conf_parent_K1 (Parent.process_begin conf_parent_K1 0)
        [Parent.Event.broadcast ⟨1, 0⟩ "K1".toList, Parent.Event.timer 640,
          Parent.Event.timer 7680, Parent.Event.timer 20000]).map
      (fun s => missings s.out) = some [] := by
  decide

end SmartBracelets

namespace SmartBracelets

/-- C10 (amended): on the parent, pairing does not arm the LivenessTimer. In every reachable
state in PAIRING the timer is unset; both ways of completing the pairing, the discovery
match in `broadcast_recv` and the acknowledgment in `recv_uc`, end in OPERATION and leave
it unset; from either post-pairing state, as long as no unicast is received the timer stays
unset, its expiration is not an event at any time, and no MISSING event is emitted. The
timer is first armed by the first unicast received from the bound peer in OPERATION, for
the missing-timeout counted from the arrival of that unicast. -/
theorem C10_liveness_timer_first_armed_by_report (conf : Conf) (s : Parent.State)
    (frm : linkaddr_t) (now : Nat) (hr : Parent.Reachable conf s)
    (hs : s.state = STATE_PAIRING) :
    s.ct_missing = none ∧
    ((Parent.broadcast_recv conf s frm conf.PRODUCT_KEY).state = STATE_OPERATION ∧
      (Parent.broadcast_recv conf s frm conf.PRODUCT_KEY).ct_missing = none) ∧
    ((Parent.recv_uc conf now s frm STOP_PAIRING).returns = true ∧
      (Parent.recv_uc conf now s frm STOP_PAIRING).st.state = STATE_OPERATION ∧
      (Parent.recv_uc conf now s frm STOP_PAIRING).st.ct_missing = none) ∧
    (∀ (s1 s2 : Parent.State) (es : List Parent.Event),
      (s1 = Parent.broadcast_recv conf s frm conf.PRODUCT_KEY ∨
        s1 = (Parent.recv_uc conf now s frm STOP_PAIRING).st) →
      (∀ e ∈ es, Parent.is_unicast e = false) →
      Parent.run conf s1 es = some s2 →
      s2.ct_missing = none ∧ missings s2.out = missings s1.out ∧
        ∀ t, Parent.step conf s2 (Parent.Event.ctimer t) = none) ∧
    (∀ (s1 : Parent.State) (t : Nat) (a : linkaddr_t) (p : Str),
      s1.state = STATE_OPERATION → Parent.check_address s1 a = 1 →
      (Parent.recv_uc conf t s1 a p).st.ct_missing =
        some (timer_set t (conf.CLOCK_SECOND * MISSING_TIMER))) := by
  have h0 : s.ct_missing = none := parent_pairing_timer_unset conf s hr hs
  have hb : (Parent.broadcast_recv conf s frm conf.PRODUCT_KEY).state = STATE_OPERATION ∧
      (Parent.broadcast_recv conf s frm conf.PRODUCT_KEY).ct_missing = none := by
    rw [Parent.broadcast_recv_key]
    by_cases hn : linkaddr_cmp frm conf.linkaddr_node_addr = true
    · simp [Parent.start_operation_mode, Parent.emit, h0, hn]
    · simp [Parent.start_operation_mode, Parent.emit, h0, hn]
  have hu : (Parent.recv_uc conf now s frm STOP_PAIRING).returns = true ∧
      (Parent.recv_uc conf now s frm STOP_PAIRING).st.state = STATE_OPERATION ∧
      (Parent.recv_uc conf now s frm STOP_PAIRING).st.ct_missing = none := by
    have hp1 : ¬ (Parent.check_address s frm = 1 ∧ s.state = STATE_OPERATION) := by
      rw [hs]; intro h; exact absurd h.2 (by decide)
    unfold Parent.recv_uc
    rw [if_neg hp1, if_pos hs]
    simp [Parent.emit, Result.returns, Result.st, h0]
  refine ⟨h0, hb, hu, ?_, ?_⟩
  · intro s1 s2 es hs1 hes hrun
    have h1 : s1.ct_missing = none := by
      rcases hs1 with h | h
      · rw [h]; exact hb.2
      · rw [h]; exact hu.2.2
    obtain ⟨h2, h3⟩ := parent_run_timer_unset conf es s1 s2 h1 hes hrun
    refine ⟨h2, h3, fun t => ?_⟩
    simp [Parent.step, Parent.ctimer_expired, h2]
  · intro s1 t a p ho hadr
    rw [parent_recv_uc_bound conf t s1 a p hadr ho]
    obtain ⟨_, _, _, _, d5, _, _⟩ := Parent.recv_uc_decode_fields
      (Parent.emit (Parent.init conf t s1) (Output.printf_payload p)) p
    rw [d5]
    simp [Parent.emit, Parent.init]

/-- C10 (amended) at the initial state of the parent 2.0, paired by the broadcast of the
child 1.0 and then handling two timer ticks. -/
theorem C10_liveness_timer_first_armed_by_report_witness :
    (Parent.broadcast_recv conf_parent_K1 (Parent.process_begin conf_parent_K1 0) ⟨1, 0⟩
        conf_parent_K1.PRODUCT_KEY).ct_missing = none ∧
    (Parent.run conf_parent_K1
        (Parent.broadcast_recv conf_parent_K1 (Parent.process_begin conf_parent_K1 0) ⟨1, 0⟩
          conf_parent_K1.PRODUCT_KEY)
        [Parent.Event.timer 640, Parent.Event.timer 7680]).map
      (fun s => s.ct_missing) = some none := by
  have h := C10_liveness_timer_first_armed_by_report conf_parent_K1
    (Parent.process_begin conf_parent_K1 0) ⟨1, 0⟩ 0 ⟨0, [], rfl⟩ (by decide)
  have hsome : (Parent.run conf_parent_K1
      (Parent.broadcast_recv conf_parent_K1 (Parent.process_begin conf_parent_K1 0) ⟨1, 0⟩
        conf_parent_K1.PRODUCT_KEY)
      [Parent.Event.timer 640, Parent.Event.timer 7680]).isSome = true := by decide
  refine ⟨h.2.1.2, ?_⟩
  have h2 := (h.2.2.2.1 _ _ [Parent.Event.timer 640, Parent.Event.timer 7680] (Or.inl rfl)
    (by decide) (Option.some_get hsome).symm).1
  rw [← Option.some_get hsome]
  exact congrArg some h2

end SmartBracelets

namespace SmartBracelets

/-- The test `check_address` holds exactly for the bound peer. -/
theorem parent_check_address_iff (s : Parent.State) (frm : linkaddr_t) :
    Parent.check_address s frm = 1 ↔ frm = s.addr := by
  unfold Parent.check_address
  cases frm with
  | mk f0 f1 =>
    cases hs : s.addr with
    | mk a0 a1 =>
      by_cases h : f0 = a0 ∧ f1 = a1
      · simp [h]
      · simp only [if_neg h]
        constructor
        · intro h'; exact absurd h' (by decide)
        · intro h'
          simp only [linkaddr_t.mk.injEq] at h'
          exact absurd h' h

/-- The decoding statements of `recv_uc` emit no MISSING event. -/
theorem recv_uc_decode_missings (s : Parent.State) (payload : Str) :
    missings (Parent.recv_uc_decode s payload).st.out = missings s.out := by
  unfold Parent.recv_uc_decode
  simp only
  split
  · simp [Result.st]
  · split
    · simp [Result.st]
    · split
      · simp [Result.st]
      · split_ifs <;> simp [Result.st, Parent.emit, missings_append, missings]

/-- In a well-timed trace the next report arrives less than the interval after the latest
one. -/
theorem next_report_lt (interval : Nat) (frm : linkaddr_t) (es : List Parent.Event) :
    ∀ (last t' : Nat), Parent.well_timed interval frm last es = true →
      Parent.next_report frm es = some t' → t' < last + interval := by
  induction es with
  | nil => intro last t' _ h; simp [Parent.next_report] at h
  | cons e es ih =>
    intro last t' hw hn
    cases e with
    | timer t =>
      simp only [Parent.well_timed] at hw
      simp only [Parent.next_report] at hn
      exact ih last t' hw hn
    | broadcast a p => simp [Parent.well_timed] at hw
    | unicast t a p =>
      simp only [Parent.well_timed] at hw
      simp only [Parent.next_report] at hn
      by_cases ha : a = frm
      · simp only [if_pos ha, Bool.and_eq_true, decide_eq_true_eq] at hw
        simp only [if_pos ha, Option.some.injEq] at hn
        omega
      · simp only [if_neg ha] at hw hn
        exact ih last t' hw hn
    | sent d =>
      simp only [Parent.well_timed] at hw
      simp only [Parent.next_report] at hn
      exact ih last t' hw hn
    | ctimer t =>
      simp only [Parent.well_timed, Bool.and_eq_true] at hw
      simp only [Parent.next_report] at hn
      exact ih last t' hw.2 hn

/-- While the reports of the bound peer keep arriving in time, the ctimer never expires:
a well-timed trace that is handled to its end holds no expiration, no MISSING event is
emitted, and the pending deadline is the one set by the latest report. -/
theorem parent_run_well_timed (conf : Conf) (frm : linkaddr_t) (es : List Parent.Event) :
    ∀ (s s2 : Parent.State) (last : Nat), s.state = STATE_OPERATION → s.addr = frm →
      s.ct_missing = some (timer_set last (conf.CLOCK_SECOND * MISSING_TIMER)) →
      Parent.well_timed (conf.CLOCK_SECOND * MISSING_TIMER) frm last es = true →
      Parent.run conf s es = some s2 →
      (∀ e ∈ es, Parent.is_ctimer e = false) ∧ missings s2.out = missings s.out ∧
        s2.ct_missing = some (timer_set (Parent.last_report frm last es)
          (conf.CLOCK_SECOND * MISSING_TIMER)) ∧
        s2.state = STATE_OPERATION ∧ s2.addr = frm := by
  induction es with
  | nil =>
    intro s s2 last hs ha hc _ hrun
    simp only [Parent.run, Option.some.injEq] at hrun
    subst hrun
    exact ⟨by simp, rfl, hc, hs, ha⟩
  | cons e es ih =>
    intro s s2 last hs ha hc hw hrun
    unfold Parent.run at hrun
    rcases hst : Parent.step conf s e with _ | s1
    · simp [hst] at hrun
    · simp only [hst, Option.some_bind] at hrun
      cases e with
      | timer t =>
        simp only [Parent.well_timed] at hw
        simp only [Parent.step, Option.some.injEq] at hst
        have h1 : s1 = s := by
          rw [← hst]; unfold Parent.state_machine
          rw [if_neg (by rw [hs]; decide)]
        subst h1
        obtain ⟨g1, g2, g3, g4, g5⟩ := ih s1 s2 last hs ha hc hw hrun
        refine ⟨?_, g2, g3, g4, g5⟩
        intro e he
        rcases List.mem_cons.1 he with h | h
        · subst h; rfl
        · exact g1 e h
      | broadcast a p => simp [Parent.well_timed] at hw
      | unicast t a p =>
        simp only [Parent.well_timed] at hw
        simp only [Parent.step] at hst
        by_cases hfa : a = frm
        · simp only [if_pos hfa, Bool.and_eq_true, decide_eq_true_eq] at hw
          have hchk : Parent.check_address s a = 1 :=
            (parent_check_address_iff s a).2 (hfa.trans ha.symm)
          rw [parent_recv_uc_bound conf t s a p hchk hs] at hst
          obtain ⟨d1, d2, _, _, d5, _, _⟩ := Parent.recv_uc_decode_fields
            (Parent.emit (Parent.init conf t s) (Output.printf_payload p)) p
          have dm := recv_uc_decode_missings
            (Parent.emit (Parent.init conf t s) (Output.printf_payload p)) p
          rcases hr : Parent.recv_uc_decode
              (Parent.emit (Parent.init conf t s) (Output.printf_payload p)) p with r | r
          · rw [hr] at hst d1 d2 d5 dm
            simp only [Option.some.injEq] at hst
            subst hst
            simp only [Result.st] at d1 d2 d5 dm
            have hs1 : r.state = STATE_OPERATION := by rw [d1]; simpa [Parent.emit, Parent.init]
            have ha1 : r.addr = frm := by rw [d2]; simpa [Parent.emit, Parent.init]
            have hc1 : r.ct_missing =
                some (timer_set t (conf.CLOCK_SECOND * MISSING_TIMER)) := by
              rw [d5]; simp [Parent.emit, Parent.init]
            have hm1 : missings r.out = missings s.out := by
              rw [dm]; simp [Parent.emit, Parent.init, missings_append, missings]
            obtain ⟨g1, g2, g3, g4, g5⟩ := ih r s2 t hs1 ha1 hc1 hw.2 hrun
            refine ⟨?_, g2.trans hm1, ?_, g4, g5⟩
            · intro e he
              rcases List.mem_cons.1 he with h | h
              · subst h; rfl
              · exact g1 e h
            · simpa [Parent.last_report, hfa] using g3
          · rw [hr] at hst; simp at hst
        · simp only [if_neg hfa] at hw
          have hchk : Parent.check_address s a ≠ 1 := fun h =>
            hfa (((parent_check_address_iff s a).1 h).trans ha)
          rw [parent_recv_uc_stranger conf t s a p hchk hs] at hst
          simp only [Option.some.injEq] at hst
          subst hst
          obtain ⟨g1, g2, g3, g4, g5⟩ := ih s s2 last hs ha hc hw hrun
          refine ⟨?_, g2, ?_, g4, g5⟩
          · intro e he
            rcases List.mem_cons.1 he with h | h
            · subst h; rfl
            · exact g1 e h
          · simpa [Parent.last_report, hfa] using g3
      | sent d =>
        simp only [Parent.well_timed] at hw
        simp only [Parent.step, Option.some.injEq] at hst
        have hs1 : s1.state = STATE_OPERATION := by
          rw [← hst]; unfold Parent.sent_uc; split_ifs <;> simp [Parent.emit, hs]
        have ha1 : s1.addr = frm := by
          rw [← hst]; unfold Parent.sent_uc; split_ifs <;> simp [Parent.emit, ha]
        have hc1 : s1.ct_missing =
            some (timer_set last (conf.CLOCK_SECOND * MISSING_TIMER)) := by
          rw [← hst]; unfold Parent.sent_uc; split_ifs <;> simp [Parent.emit, hc]
        have hm1 : missings s1.out = missings s.out := by
          rw [← hst]; unfold Parent.sent_uc
          split_ifs <;> simp [Parent.emit, missings_append, missings]
        obtain ⟨g1, g2, g3, g4, g5⟩ := ih s1 s2 last hs1 ha1 hc1 hw hrun
        refine ⟨?_, g2.trans hm1, g3, g4, g5⟩
        intro e he
        rcases List.mem_cons.1 he with h | h
        · subst h; rfl
        · exact g1 e h
      | ctimer t =>
        simp only [Parent.well_timed, Bool.and_eq_true, decide_eq_true_eq] at hw
        obtain ⟨⟨_, hnext⟩, hw'⟩ := hw
        rcases hn : Parent.next_report frm es with _ | t'
        · rw [hn] at hnext; simp at hnext
        · rw [hn] at hnext
          simp only [decide_eq_true_eq] at hnext
          have hlt := next_report_lt _ frm es last t' hw' hn
          simp only [Parent.step, Parent.ctimer_expired, hc, timer.expiry, timer_set] at hst
          rw [if_neg (by simp; omega)] at hst
          simp at hst

end SmartBracelets

namespace SmartBracelets

/-- C11: on the parent in OPERATION, after a first report accepted from the bound peer at
time `t1`, consider any trace in which the reports of the bound peer keep arriving, each
less than the missing-timeout after the one before, and in which an expiration of the
LivenessTimer could only be observed before a later report. If the trace is handled to its
end (every report is accepted), then it holds no expiration of the timer and no MISSING
event is emitted: each report replaces the single pending deadline by its arrival time
plus the missing-timeout, and that deadline is not reached at any time before it. -/
theorem C11_no_missing_while_reports_arrive (conf : Conf) (s0 s1 s2 : Parent.State)
    (frm : linkaddr_t) (t1 : Nat) (p1 : Str) (es : List Parent.Event)
    (hs : s0.state = STATE_OPERATION) (ha : Parent.check_address s0 frm = 1)
    (h1 : Parent.recv_uc conf t1 s0 frm p1 = Result.ok s1)
    (hw : Parent.well_timed (conf.CLOCK_SECOND * MISSING_TIMER) frm t1 es = true)
    (hrun : Parent.run conf s1 es = some s2) :
    s1.ct_missing = some (timer_set t1 (conf.CLOCK_SECOND * MISSING_TIMER)) ∧
    missings s1.out = missings s0.out ∧
    (∀ e ∈ es, Parent.is_ctimer e = false) ∧
    missings s2.out = missings s0.out ∧
    s2.ct_missing = some (timer_set (Parent.last_report frm t1 es)
      (conf.CLOCK_SECOND * MISSING_TIMER)) ∧
    (∀ t, t < Parent.last_report frm t1 es + conf.CLOCK_SECOND * MISSING_TIMER →
      Parent.step conf s2 (Parent.Event.ctimer t) = none) := by
  have hb := parent_recv_uc_bound conf t1 s0 frm p1 ha hs
  obtain ⟨d1, d2, _, _, d5, _, _⟩ := Parent.recv_uc_decode_fields
    (Parent.emit (Parent.init conf t1 s0) (Output.printf_payload p1)) p1
  have dm := recv_uc_decode_missings
    (Parent.emit (Parent.init conf t1 s0) (Output.printf_payload p1)) p1
  rw [← hb, h1] at d1 d2 d5 dm
  simp only [Result.st] at d1 d2 d5 dm
  have hs1 : s1.state = STATE_OPERATION := by rw [d1]; simpa [Parent.emit, Parent.init]
  have ha1 : s1.addr = frm := by
    rw [d2]; simpa [Parent.emit, Parent.init] using ((parent_check_address_iff s0 frm).1 ha).symm
  have hc1 : s1.ct_missing = some (timer_set t1 (conf.CLOCK_SECOND * MISSING_TIMER)) := by
    rw [d5]; simp [Parent.emit, Parent.init]
  have hm1 : missings s1.out = missings s0.out := by
    rw [dm]; simp [Parent.emit, Parent.init, missings_append, missings]
  obtain ⟨g1, g2, g3, _, _⟩ := parent_run_well_timed conf frm es s1 s2 t1 hs1 ha1 hc1 hw hrun
  refine ⟨hc1, hm1, g1, g2.trans hm1, g3, ?_⟩
  intro t ht
  simp only [Parent.step, Parent.ctimer_expired, g3, timer.expiry, timer_set]
  rw [if_neg (by simp; omega)]

/-- C11 on the paired parent `Parent.paired_K1`: a report at time 100, then a tick, a
report at 5000, a send completion, a unicast of the stranger 3.0 and a report at 9000,
with a missing-timeout of 7680 ticks. -/
theorem C11_no_missing_while_reports_arrive_witness :
    (Parent.run conf_parent_K1
        (Parent.recv_uc conf_parent_K1 100 Parent.paired_K1 ⟨1, 0⟩
          "INFO:STANDING,X:5,Y:6".toList).st
        [Parent.Event.timer 200,
          Parent.Event.unicast 5000 ⟨1, 0⟩ "INFO:WALKING,X:3,Y:4".toList,
          Parent.Event.sent ⟨1, 0⟩,
          Parent.Event.unicast 6000 ⟨3, 0⟩ STOP_PAIRING,
          Parent.Event.unicast 9000 ⟨1, 0⟩ "INFO:FALLING,X:7,Y:8".toList]).map
      (fun s => (s.ct_missing, missings s.out)) =
      some (some (timer_set 9000 (conf_parent_K1.CLOCK_SECOND * MISSING_TIMER)),
        missings Parent.paired_K1.out) := by
  have hsome : (Parent.run conf_parent_K1
      (Parent.recv_uc conf_parent_K1 100 Parent.paired_K1 ⟨1, 0⟩
        "INFO:STANDING,X:5,Y:6".toList).st
      [Parent.Event.timer 200,
        Parent.Event.unicast 5000 ⟨1, 0⟩ "INFO:WALKING,X:3,Y:4".toList,
        Parent.Event.sent ⟨1, 0⟩,
        Parent.Event.unicast 6000 ⟨3, 0⟩ STOP_PAIRING,
        Parent.Event.unicast 9000 ⟨1, 0⟩ "INFO:FALLING,X:7,Y:8".toList]).isSome = true := by
    decide
  have h := C11_no_missing_while_reports_arrive conf_parent_K1 Parent.paired_K1 _ _ ⟨1, 0⟩
    100 "INFO:STANDING,X:5,Y:6".toList _ (by decide) (by decide) (by decide) (by decide)
    (Option.some_get hsome).symm
  rw [← Option.some_get hsome]
  simp only [Option.map_some']
  rw [h.2.2.2.1, h.2.2.2.2.1]
  rfl

end SmartBracelets

namespace SmartBracelets

/-- The state after `k` firings of the ctimer callback. -/
theorem parent_callback_iterate (s : Parent.State) (start interval : Nat)
    (hc : s.ct_missing = some ⟨start, interval⟩) (k : Nat) :
    (Parent.callback^[k] s).ct_missing = some ⟨start + k * interval, interval⟩ ∧
    (Parent.callback^[k] s).child_coordinates = s.child_coordinates ∧
    (Parent.callback^[k] s).state = s.state ∧
    (Parent.callback^[k] s).addr = s.addr ∧
    missings (Parent.callback^[k] s).out =
      missings s.out ++ List.replicate k s.child_coordinates := by
  induction k with
  | zero => simp [hc]
  | succ k ih =>
    obtain ⟨h1, h2, h3, h4, h5⟩ := ih
    rw [Function.iterate_succ_apply']
    refine ⟨?_, ?_, ?_, ?_, ?_⟩
    · simp only [Parent.callback, Parent.emit, h1, Option.map_some', timer_reset]
      congr 2
      ring
    · simp [Parent.callback, Parent.emit, h2]
    · simp [Parent.callback, Parent.emit, h3]
    · simp [Parent.callback, Parent.emit, h4]
    · simp only [Parent.callback, Parent.emit, missings_append, missings, h5, h2]
      rw [List.replicate_succ', List.append_assoc]

/-- A firing of the ctimer that is due: one MISSING event with the current position is
added to the trace and the timer is restarted from its expiration time. -/
theorem parent_ctimer_step (conf : Conf) (u : Parent.State) (t : timer) (now : Nat)
    (hu : u.ct_missing = some t) (hd : t.expiry ≤ now) :
    Parent.step conf u (Parent.Event.ctimer now) = some
      { u with
        out := u.out ++ [Output.printf_MISSING u.child_coordinates],
        ct_missing := some ⟨t.expiry, t.interval⟩ } := by
  simp only [timer.expiry] at hd
  simp [Parent.step, Parent.ctimer_expired, hu, hd, Parent.callback, Parent.emit,
    timer_reset, timer.expiry]

/-- While nothing but the LivenessTimer happens, the timer fires at its expiration time and
then every interval again: up to a time in the period number `n` after its start there
are exactly `n` firings, at start + interval, ..., start + n * interval, each adding one
MISSING event with the position held when the idle time began. -/
theorem parent_idle_firings (conf : Conf) (interval upto : Nat) (fuel : Nat) :
    ∀ (n : Nat) (s : Parent.State) (start : Nat), s.ct_missing = some ⟨start, interval⟩ →
      start + n * interval ≤ upto → upto < start + (n + 1) * interval → n < fuel →
      Parent.idle conf fuel upto s =
        ((List.range n).map (fun k => (start + (k + 1) * interval,
            [Output.printf_MISSING s.child_coordinates])),
          Parent.callback^[n] s) := by
  induction fuel with
  | zero => intro n s start _ _ _ hf; omega
  | succ fuel ih =>
    intro n s start hc h1 h2 hf
    unfold Parent.idle
    rw [hc]
    simp only [timer.expiry]
    cases n with
    | zero =>
      rw [if_neg (by omega)]
      simp
    | succ m =>
      have hm : (m + 1) * interval = m * interval + interval := Nat.succ_mul m interval
      have hm2 : (m + 1 + 1) * interval = (m + 1) * interval + interval :=
        Nat.succ_mul (m + 1) interval
      rw [if_pos (by omega)]
      have hstep := parent_ctimer_step conf s ⟨start, interval⟩ (start + interval) hc
        (Nat.le_refl _)
      simp only [timer.expiry] at hstep
      rw [hstep]
      simp only
      have hcb : ({ s with
            out := s.out ++ [Output.printf_MISSING s.child_coordinates],
            ct_missing := some ⟨start + interval, interval⟩ } : Parent.State) =
          Parent.callback s := by
        simp [Parent.callback, Parent.emit, hc, timer_reset]
      rw [hcb]
      have hc' : (Parent.callback s).ct_missing = some ⟨start + interval, interval⟩ := by
        rw [← hcb]
      have hcc : (Parent.callback s).child_coordinates = s.child_coordinates := by
        rw [← hcb]
      have hout : (s.out ++ [Output.printf_MISSING s.child_coordinates]).drop s.out.length =
          [Output.printf_MISSING s.child_coordinates] := by
        simp
      rw [ih m (Parent.callback s) (start + interval) hc' (by omega) (by omega) (by omega)]
      rw [hout, hcc, Function.iterate_succ_apply]
      simp only [List.range_succ_eq_map, List.map_cons, List.map_map, Prod.mk.injEq,
        List.cons.injEq, and_true, true_and]
      refine ⟨by omega, ?_⟩
      apply List.map_congr_left
      intro k _
      simp only [Function.comp_apply, Prod.mk.injEq, and_true]
      have hk : (k + 1 + 1) * interval = (k + 1) * interval + interval :=
        Nat.succ_mul (k + 1) interval
      rw [Nat.succ_eq_add_one, hk]
      omega

/-- C12: on the parent, a firing of the LivenessTimer, which occurs when the timer is due,
emits exactly one MISSING event, with the current LastKnownPosition, changes nothing else
but the timer, and restarts the timer from its expiration time for one more
missing-timeout. Consequently, if the last report was accepted at time `t0` and nothing
arrives afterwards, then in the time up to any `upto` the firings are exactly those at
`t0 + k * timeout` for `k = 1, ..., (upto - t0) / timeout`, each emitting one MISSING event
with the position of that report and nothing else; after them the state, the peer address
and the position are as the report left them and the timer is pending for
`t0 + (k + 1) * timeout`, the timeout being 60 seconds in clock ticks. -/
theorem C12_missing_repeats_every_timeout (conf : Conf) (s0 s : Parent.State)
    (frm : linkaddr_t) (t0 upto : Nat) (payload : Str)
    (hs : s0.state = STATE_OPERATION) (ha : Parent.check_address s0 frm = 1)
    (hr : Parent.recv_uc conf t0 s0 frm payload = Result.ok s)
    (hclock : 0 < conf.CLOCK_SECOND) (hlater : t0 ≤ upto) :
    (∀ (u : Parent.State) (t : timer) (now : Nat), u.ct_missing = some t → t.expiry ≤ now →
      Parent.step conf u (Parent.Event.ctimer now) = some
        { u with
          out := u.out ++ [Output.printf_MISSING u.child_coordinates],
          ct_missing := some ⟨t.expiry, t.interval⟩ }) ∧
    (∀ (u : Parent.State) (t : timer) (now : Nat), u.ct_missing = some t → now < t.expiry →
      Parent.step conf u (Parent.Event.ctimer now) = none) ∧
    Parent.idle_until conf upto s =
      ((List.range ((upto - t0) / (conf.CLOCK_SECOND * 60))).map
          (fun k => (t0 + (k + 1) * (conf.CLOCK_SECOND * 60),
            [Output.printf_MISSING s.child_coordinates])),
        Parent.callback^[(upto - t0) / (conf.CLOCK_SECOND * 60)] s) ∧
    (Parent.idle_until conf upto s).2.ct_missing =
      some ⟨t0 + (upto - t0) / (conf.CLOCK_SECOND * 60) * (conf.CLOCK_SECOND * 60),
        conf.CLOCK_SECOND * 60⟩ ∧
    (Parent.idle_until conf upto s).2.child_coordinates = s.child_coordinates ∧
    (Parent.idle_until conf upto s).2.state = s.state ∧
    (Parent.idle_until conf upto s).2.addr = s.addr ∧
    missings (Parent.idle_until conf upto s).2.out =
      missings s.out ++
        List.replicate ((upto - t0) / (conf.CLOCK_SECOND * 60)) s.child_coordinates := by
  have hb := parent_recv_uc_bound conf t0 s0 frm payload ha hs
  obtain ⟨_, _, _, _, d5, _, _⟩ := Parent.recv_uc_decode_fields
    (Parent.emit (Parent.init conf t0 s0) (Output.printf_payload payload)) payload
  rw [← hb, hr] at d5
  simp only [Result.st] at d5
  have hc : s.ct_missing = some ⟨t0, conf.CLOCK_SECOND * 60⟩ := by
    rw [d5]; simp [Parent.emit, Parent.init, timer_set, MISSING_TIMER]
  have hT : 0 < conf.CLOCK_SECOND * 60 := by omega
  have h1 : t0 + (upto - t0) / (conf.CLOCK_SECOND * 60) * (conf.CLOCK_SECOND * 60) ≤ upto := by
    have := Nat.div_mul_le_self (upto - t0) (conf.CLOCK_SECOND * 60)
    omega
  have h2 : upto <
      t0 + ((upto - t0) / (conf.CLOCK_SECOND * 60) + 1) * (conf.CLOCK_SECOND * 60) := by
    have := Nat.lt_mul_div_succ (upto - t0) hT
    rw [Nat.mul_comm] at this
    omega
  have hn : (upto - t0) / (conf.CLOCK_SECOND * 60) < upto + 1 := by
    have := Nat.div_le_self (upto - t0) (conf.CLOCK_SECOND * 60)
    omega
  have hidle := parent_idle_firings conf (conf.CLOCK_SECOND * 60) upto (upto + 1)
    ((upto - t0) / (conf.CLOCK_SECOND * 60)) s t0 hc h1 h2 hn
  obtain ⟨k1, k2, k3, k4, k5⟩ := parent_callback_iterate s t0 _ hc
    ((upto - t0) / (conf.CLOCK_SECOND * 60))
  have hst : (Parent.idle_until conf upto s).2 =
      Parent.callback^[(upto - t0) / (conf.CLOCK_SECOND * 60)] s := by
    unfold Parent.idle_until
    rw [hidle]
  refine ⟨fun u t now hu hd => parent_ctimer_step conf u t now hu hd, ?_, hidle, ?_, ?_, ?_, ?_,
    ?_⟩
  · intro u t now hu hd
    simp only [timer.expiry] at hd
    simp [Parent.step, Parent.ctimer_expired, hu, timer.expiry, hd]
  · rw [hst]; exact k1
  · rw [hst]; exact k2
  · rw [hst]; exact k3
  · rw [hst]; exact k4
  · rw [hst]; exact k5

/-- C12 on the paired parent `Parent.paired_K1`, whose last report arrived at time 10 with
position "X:1,Y:2", with a missing-timeout of 7680 ticks: up to time 16000 the timer fires
twice, at 7690 and at 15370, each time emitting MISSING with that position. -/
theorem C12_missing_repeats_every_timeout_witness :
    Parent.idle_until conf_parent_K1 16000 Parent.paired_K1 =
      ([(7690, [Output.printf_MISSING "X:1,Y:2".toList]),
        (15370, [Output.printf_MISSING "X:1,Y:2".toList])],
        Parent.callback (Parent.callback Parent.paired_K1)) ∧
    (Parent.idle_until conf_parent_K1 16000 Parent.paired_K1).2.ct_missing =
      some ⟨15370, 7680⟩ ∧
    Parent.step conf_parent_K1 Parent.paired_K1 (Parent.Event.ctimer 7689) = none := by
  have h := C12_missing_repeats_every_timeout conf_parent_K1
    (Parent.broadcast_recv conf_parent_K1 (Parent.process_begin conf_parent_K1 0) ⟨1, 0⟩
      "K1".toList)
    Parent.paired_K1 ⟨1, 0⟩ 10 16000 "INFO:STANDING,X:1,Y:2".toList
    (by decide) (by decide) (by decide) (by decide) (by decide)
  refine ⟨?_, ?_, ?_⟩
  · rw [h.2.2.1]; decide
  · rw [h.2.2.2.1]; decide
  · exact h.2.1 Parent.paired_K1 ⟨10, 7680⟩ 7689 (by decide) (by decide)

/-- C13: on the parent in OPERATION, a unicast whose sender differs from the bound peer in
at least one byte changes nothing, whatever the payload: `recv_uc` returns in the state it
was called in, so the state, the peer address, LastKnownPosition and the LivenessTimer are
unchanged, nothing is printed and no FALL event is emitted. -/
theorem C13_unicast_of_stranger_changes_nothing (conf : Conf) (now : Nat)
    (s : Parent.State) (frm : linkaddr_t) (payload : Str)
    (hs : s.state = STATE_OPERATION)
    (hne : frm.u8_0 ≠ s.addr.u8_0 ∨ frm.u8_1 ≠ s.addr.u8_1) :
    Parent.recv_uc conf now s frm payload = Result.ok s := by
  apply parent_recv_uc_stranger conf now s frm payload _ hs
  unfold Parent.check_address
  rw [if_neg (by
    intro h
    rcases hne with h' | h'
    · exact h' h.1
    · exact h' h.2)]
  decide

/-- C13 on the paired parent `Parent.paired_K1`, bound to 1.0, receiving a FALLING report
from 1.7 at time 100. -/
theorem C13_unicast_of_stranger_changes_nothing_witness :
    Parent.recv_uc conf_parent_K1 100 Parent.paired_K1 ⟨1, 7⟩
      "INFO:FALLING,X:1,Y:2".toList = Result.ok Parent.paired_K1 :=
  C13_unicast_of_stranger_changes_nothing conf_parent_K1 100 Parent.paired_K1 ⟨1, 7⟩
    "INFO:FALLING,X:1,Y:2".toList (by decide) (by decide)

end SmartBracelets

namespace SmartBracelets

/-- The candidate drawn is the value of `random_rand()` modulo 4. -/
theorem read_status_iter_index (s : Child.State) (r : Nat) :
    (Child.read_status_iter s r).1 = r % 4 := by
  unfold Child.read_status_iter
  by_cases h1 : s.counter_status.get (r % 4) % 4 ≠ 0 ∧ r % 4 ≠ 3
  · simp [h1]
  · by_cases h2 : s.counter_status.get 3 % 2 ≠ 0 <;> simp [h1, h2]

/-- An iteration of the loop of `read_status` that accepts its candidate: through the first
test, or else through the test of the FALLING counter. -/
theorem read_status_iter_accept (s : Child.State) (r : Nat)
    (h : (s.counter_status.get (r % 4) % 4 ≠ 0 ∧ r % 4 ≠ 3) ∨
      s.counter_status.get 3 % 2 ≠ 0) :
    Child.read_status_iter s r = (r % 4, true,
      if s.status_counter % 10 = 0 then
        Child.reset_probabilities { s with counter_status := s.counter_status.incr (r % 4) }
      else { s with counter_status := s.counter_status.incr (r % 4) }) := by
  unfold Child.read_status_iter
  by_cases h1 : s.counter_status.get (r % 4) % 4 ≠ 0 ∧ r % 4 ≠ 3
  · simp [h1]
  · have h2 : s.counter_status.get 3 % 2 ≠ 0 := h.resolve_left h1
    simp [h1, h2]

/-- An iteration of the loop of `read_status` that rejects its candidate. -/
theorem read_status_iter_reject (s : Child.State) (r : Nat)
    (h : ¬ ((s.counter_status.get (r % 4) % 4 ≠ 0 ∧ r % 4 ≠ 3) ∨
      s.counter_status.get 3 % 2 ≠ 0)) :
    Child.read_status_iter s r = (r % 4, false,
      if s.status_counter % 10 = 0 then Child.reset_probabilities s else s) := by
  unfold Child.read_status_iter
  have h1 : ¬ (s.counter_status.get (r % 4) % 4 ≠ 0 ∧ r % 4 ≠ 3) := fun h' => h (Or.inl h')
  have h2 : ¬ (s.counter_status.get 3 % 2 ≠ 0) := fun h' => h (Or.inr h')
  simp [h1, h2]

/-- The loop body accepts a candidate exactly when its own counter is not a multiple of 4
and it is not FALLING, or the FALLING counter is odd. -/
theorem accepts_iff (s : Child.State) (r : Nat) :
    Child.accepts s r = true ↔
      ((s.counter_status.get (r % 4) % 4 ≠ 0 ∧ r % 4 ≠ 3) ∨
        s.counter_status.get 3 % 2 ≠ 0) := by
  unfold Child.accepts
  by_cases h : (s.counter_status.get (r % 4) % 4 ≠ 0 ∧ r % 4 ≠ 3) ∨
      s.counter_status.get 3 % 2 ≠ 0
  · rw [read_status_iter_accept s r h]
    exact ⟨fun _ => h, fun _ => rfl⟩
  · rw [read_status_iter_reject s r h]
    exact ⟨fun h' => absurd h' (by simp), fun h' => absurd h' h⟩

/-- The loop of `read_status` returns exactly when, after some iterations that all reject,
one iteration accepts; the index returned is the candidate of that iteration. -/
theorem read_status_loop_accepting (draws : List Nat) :
    ∀ (s s' : Child.State) (i : Nat), Child.read_status_loop s draws = some (i, s') →
      ∃ (pre : List Nat) (r : Nat) (post : List Nat) (t : Child.State),
        draws = pre ++ r :: post ∧ Child.reject_all s pre = some t ∧
          Child.read_status_iter t r = (i, true, s') := by
  induction draws with
  | nil => intro s s' i h; simp [Child.read_status_loop] at h
  | cons r draws ih =>
    intro s s' i h
    unfold Child.read_status_loop at h
    rcases hit : Child.read_status_iter s r with ⟨idx, v, s1⟩
    rw [hit] at h
    cases v with
    | true =>
      simp only [Option.some.injEq, Prod.mk.injEq] at h
      obtain ⟨rfl, rfl⟩ := h
      exact ⟨[], r, draws, s, rfl, rfl, hit⟩
    | false =>
      simp only at h
      obtain ⟨pre, r', post, t, hd, hrej, hacc⟩ := ih s1 s' i h
      refine ⟨r :: pre, r', post, t, by rw [hd]; rfl, ?_, hacc⟩
      simp only [Child.reject_all, hit]
      exact hrej

/-- A call of `read_status` in which the draw counted is not the tenth of its window: no
reset, and exactly the counter of the index returned is incremented. -/
theorem read_status_loop_no_reset (draws : List Nat) (s s' : Child.State) (i : Nat)
    (hsc : s.status_counter % 10 ≠ 0)
    (h : Child.read_status_loop s draws = some (i, s')) :
    Child.accepts s i = true ∧ i < 4 ∧ (∃ r ∈ draws, i = r % 4) ∧
      s' = { s with counter_status := s.counter_status.incr i } := by
  induction draws with
  | nil => simp [Child.read_status_loop] at h
  | cons r draws ih =>
    unfold Child.read_status_loop at h
    by_cases hacc : (s.counter_status.get (r % 4) % 4 ≠ 0 ∧ r % 4 ≠ 3) ∨
        s.counter_status.get 3 % 2 ≠ 0
    · rw [read_status_iter_accept s r hacc, if_neg hsc] at h
      simp only [Option.some.injEq, Prod.mk.injEq] at h
      obtain ⟨rfl, rfl⟩ := h
      refine ⟨?_, Nat.mod_lt _ (by decide), ⟨r, List.mem_cons_self _ _, rfl⟩, rfl⟩
      rw [accepts_iff, Nat.mod_mod]
      exact hacc
    · rw [read_status_iter_reject s r hacc, if_neg hsc] at h
      simp only at h
      obtain ⟨h1, h2, ⟨r', hr', h3⟩, h4⟩ := ih h
      exact ⟨h1, h2, ⟨r', List.mem_cons_of_mem _ hr', h3⟩, h4⟩

/-- A call of `read_status` in which the draw counted is the tenth of its window, or that
runs on a histogram just reset: it ends with the histogram at its baseline. -/
theorem read_status_loop_reset (draws : List Nat) :
    ∀ (s s' : Child.State) (i : Nat), s.status_counter % 10 = 0 →
      Child.read_status_loop s draws = some (i, s') →
      i < 4 ∧ s'.counter_status = ⟨1, 1, 1, 1⟩ ∧ s'.status_counter = 0 := by
  induction draws with
  | nil => intro s s' i _ h; simp [Child.read_status_loop] at h
  | cons r draws ih =>
    intro s s' i hsc h
    unfold Child.read_status_loop at h
    by_cases hacc : (s.counter_status.get (r % 4) % 4 ≠ 0 ∧ r % 4 ≠ 3) ∨
        s.counter_status.get 3 % 2 ≠ 0
    · rw [read_status_iter_accept s r hacc, if_pos hsc] at h
      simp only [Option.some.injEq, Prod.mk.injEq] at h
      obtain ⟨rfl, rfl⟩ := h
      exact ⟨Nat.mod_lt _ (by decide), rfl, rfl⟩
    · rw [read_status_iter_reject s r hacc, if_pos hsc] at h
      simp only at h
      exact ih (Child.reset_probabilities s) s' i rfl h

end SmartBracelets

namespace SmartBracelets

/-- Incrementing one counter adds one to the sum of the four. -/
theorem counters_sum_incr (c : Child.counters) (i : Nat) : (c.incr i).sum = c.sum + 1 := by
  unfold Child.counters.incr Child.counters.sum
  split <;> simp <;> omega

/-- Incrementing one counter leaves every counter at least as large. -/
theorem counters_incr_ge (c : Child.counters) (i : Nat) :
    c.c0 ≤ (c.incr i).c0 ∧ c.c1 ≤ (c.incr i).c1 ∧ c.c2 ≤ (c.incr i).c2 ∧
      c.c3 ≤ (c.incr i).c3 := by
  unfold Child.counters.incr
  split <;> simp

/-- Acceptance depends on the four counters only. -/
theorem accepts_counters (s t : Child.State) (h : t.counter_status = s.counter_status)
    (r : Nat) : Child.accepts t r = Child.accepts s r := by
  cases hs : Child.accepts s r
  · cases ht : Child.accepts t r
    · rfl
    · rw [accepts_iff, h] at ht
      rw [← accepts_iff] at ht
      rw [ht] at hs; exact absurd hs (by decide)
  · rw [accepts_iff] at hs ⊢
    rw [h]; exact hs

/-- A call of `read_status` that returns: the index returned is below 4; when the draw
counted is not the tenth of its window, that index was accepted on the counters the call
found, its counter alone is incremented and the draw is counted; when it is the tenth,
the call ends with the histogram at its baseline. -/
theorem read_status_call (s s' : Child.State) (draws : List Nat) (i : Nat)
    (h : Child.read_status s draws = some (i, s')) :
    i < 4 ∧
    ((s.status_counter + 1) % 10 ≠ 0 →
      Child.accepts s i = true ∧ (∃ r ∈ draws, i = r % 4) ∧
      s' = { s with status_counter := s.status_counter + 1,
                    counter_status := s.counter_status.incr i }) ∧
    ((s.status_counter + 1) % 10 = 0 →
      s'.counter_status = ⟨1, 1, 1, 1⟩ ∧ s'.status_counter = 0) := by
  unfold Child.read_status at h
  by_cases hsc : (s.status_counter + 1) % 10 = 0
  · obtain ⟨h1, h2, h3⟩ := read_status_loop_reset draws
      { s with status_counter := s.status_counter + 1 } s' i hsc h
    exact ⟨h1, fun hn => absurd hsc hn, fun _ => ⟨h2, h3⟩⟩
  · obtain ⟨h1, h2, h3, h4⟩ := read_status_loop_no_reset draws
      { s with status_counter := s.status_counter + 1 } s' i hsc h
    refine ⟨h2, fun _ => ⟨?_, h3, h4⟩, fun hn => absurd hn hsc⟩
    rw [← h1]
    exact (accepts_counters s { s with status_counter := s.status_counter + 1 } rfl i).symm

/-- A call of `read_status` keeps the histogram well-formed. -/
theorem read_status_histogram_ok (s s' : Child.State) (draws : List Nat) (i : Nat)
    (hok : Child.histogram_ok s) (h : Child.read_status s draws = some (i, s')) :
    Child.histogram_ok s' := by
  obtain ⟨_, h1, h2⟩ := read_status_call s s' draws i h
  obtain ⟨k1, k2, k3, k4, k5, k6⟩ := hok
  by_cases hsc : (s.status_counter + 1) % 10 = 0
  · obtain ⟨g1, g2⟩ := h2 hsc
    unfold Child.histogram_ok
    rw [g1, g2]
    simp [Child.counters.sum]
  · obtain ⟨_, _, g⟩ := h1 hsc
    have hs := counters_sum_incr s.counter_status i
    obtain ⟨i0, i1, i2, i3⟩ := counters_incr_ge s.counter_status i
    unfold Child.histogram_ok
    rw [g]
    simp only
    refine ⟨by omega, by omega, by omega, by omega, by omega, by omega⟩

/-- Entering the loop of `read_status` from a well-formed histogram. -/
theorem loop_ok_entry (s : Child.State) (hok : Child.histogram_ok s) :
    Child.loop_ok { s with status_counter := s.status_counter + 1 } := by
  obtain ⟨k1, k2, k3, k4, k5, k6⟩ := hok
  unfold Child.loop_ok
  simp only
  exact ⟨⟨k3, k4, k5, k6⟩, Or.inl ⟨by omega, by omega, by omega⟩⟩

/-- Rejecting iterations keep the histogram at the head of the loop well-formed. -/
theorem reject_all_loop_ok (draws : List Nat) :
    ∀ (s t : Child.State), Child.loop_ok s → Child.reject_all s draws = some t →
      Child.loop_ok t := by
  induction draws with
  | nil =>
    intro s t hs h
    simp only [Child.reject_all, Option.some.injEq] at h
    exact h ▸ hs
  | cons r draws ih =>
    intro s t hs h
    unfold Child.reject_all at h
    by_cases hacc : (s.counter_status.get (r % 4) % 4 ≠ 0 ∧ r % 4 ≠ 3) ∨
        s.counter_status.get 3 % 2 ≠ 0
    · rw [read_status_iter_accept s r hacc] at h
      simp at h
    · rw [read_status_iter_reject s r hacc] at h
      simp only at h
      refine ih _ t ?_ h
      by_cases hsc : s.status_counter % 10 = 0
      · rw [if_pos hsc]
        unfold Child.loop_ok Child.reset_probabilities
        simp
      · rw [if_neg hsc]
        exact hs

/-- At the head of the loop some candidate is accepted: the loop is never stuck. -/
theorem loop_ok_progress (s : Child.State) (hs : Child.loop_ok s) :
    ∃ i, i < 4 ∧ Child.accepts s i = true := by
  obtain ⟨⟨k0, k1, k2, k3⟩, hcase⟩ := hs
  by_cases h3 : s.counter_status.c3 % 2 ≠ 0
  · exact ⟨0, by decide, (accepts_iff s 0).2 (Or.inr h3)⟩
  · rcases hcase with ⟨_, h10, hsum⟩ | ⟨_, hb⟩
    · unfold Child.counters.sum at hsum
      by_cases h0 : s.counter_status.c0 % 4 ≠ 0
      · exact ⟨0, by decide, (accepts_iff s 0).2 (Or.inl ⟨h0, by decide⟩)⟩
      · by_cases h1 : s.counter_status.c1 % 4 ≠ 0
        · exact ⟨1, by decide, (accepts_iff s 1).2 (Or.inl ⟨h1, by decide⟩)⟩
        · by_cases h2 : s.counter_status.c2 % 4 ≠ 0
          · exact ⟨2, by decide, (accepts_iff s 2).2 (Or.inl ⟨h2, by decide⟩)⟩
          · exfalso
            omega
    · rw [hb] at h3
      exact absurd (by decide) h3

end SmartBracelets

namespace SmartBracelets

/-- A tick of the child in PAIRING: one broadcast of the key packet, the attempt counter
incremented modulo 256, the pairing timer set again. -/
theorem child_state_machine_pairing (conf : Conf) (now : Nat) (s : Child.State)
    (draws : List Nat) (x y : Int) (hs : s.state = STATE_PAIRING) :
    Child.state_machine conf now s draws x y = some
      { s with
        out := s.out ++ [Output.broadcast_send (key_packet conf),
          Output.printf_searching s.connect_attempt conf.PRODUCT_KEY],
        connect_attempt := (s.connect_attempt + 1) % 256,
        et_pairing := some (timer_set now (conf.CLOCK_SECOND * PAIRING_TIMER)) } := by
  unfold Child.state_machine
  rw [if_pos hs]
  simp [Child.emit]

/-- A tick of the child in OPERATION in which `read_status` returns. -/
theorem child_state_machine_operation (conf : Conf) (now : Nat) (s s1 : Child.State)
    (draws : List Nat) (x y : Int) (i : Nat) (hs : s.state = STATE_OPERATION)
    (hr : Child.read_status s draws = some (i, s1)) :
    Child.state_machine conf now s draws x y = some
      { s1 with
        message := Child.status_message (Child.child_status i) x y,
        out := if linkaddr_cmp s1.addr conf.linkaddr_node_addr then s1.out
          else s1.out ++ [Output.unicast_send s1.addr
            (Child.status_message (Child.child_status i) x y)],
        et_operation := some (timer_set now (conf.CLOCK_SECOND * OPERATION_TIMER)) } := by
  unfold Child.state_machine
  rw [if_neg (by rw [hs]; decide), if_pos hs, hr]
  by_cases hc : linkaddr_cmp s1.addr conf.linkaddr_node_addr = true
  · simp [hc]
  · simp [hc, Child.emit]

/-- Every state of the child reached from the initial state has a well-formed histogram. -/
theorem child_reachable_histogram_ok (conf : Conf) (s : Child.State)
    (h : Child.Reachable conf s) : Child.histogram_ok s := by
  obtain ⟨now, es, hrun⟩ := h
  refine Child.child_run_invariant conf Child.histogram_ok ?_ es _ s ?_ hrun
  · intro s e s' hs hst
    have hcongr : s'.counter_status = s.counter_status →
        s'.status_counter = s.status_counter → Child.histogram_ok s' := by
      intro h1 h2
      unfold Child.histogram_ok at hs ⊢
      rw [h1, h2]; exact hs
    cases e with
    | timer now draws x y =>
      simp only [Child.step] at hst
      by_cases hp : s.state = STATE_PAIRING
      · rw [child_state_machine_pairing conf now s draws x y hp] at hst
        simp only [Option.some.injEq] at hst
        subst hst
        exact hcongr rfl rfl
      · by_cases ho : s.state = STATE_OPERATION
        · rcases hr : Child.read_status s draws with _ | ⟨i, s1⟩
          · unfold Child.state_machine at hst
            rw [if_neg hp, if_pos ho, hr] at hst
            simp at hst
          · rw [child_state_machine_operation conf now s s1 draws x y i ho hr] at hst
            simp only [Option.some.injEq] at hst
            subst hst
            have := read_status_histogram_ok s s1 draws i hs hr
            unfold Child.histogram_ok at this ⊢
            exact this
        · unfold Child.state_machine at hst
          rw [if_neg hp, if_neg ho] at hst
          simp only [Option.some.injEq] at hst
          subst hst
          exact hs
    | broadcast frm payload =>
      simp only [Child.step, Option.some.injEq] at hst
      subst hst
      apply hcongr
      · simp [Child.broadcast_recv, Child.start_operation_mode, Child.emit]
        split_ifs <;> simp
      · simp [Child.broadcast_recv, Child.start_operation_mode, Child.emit]
        split_ifs <;> simp
    | unicast frm payload =>
      simp only [Child.step, Option.some.injEq] at hst
      subst hst
      apply hcongr
      · unfold Child.recv_uc; split_ifs <;> simp [Child.emit]
      · unfold Child.recv_uc; split_ifs <;> simp [Child.emit]
    | sent dest =>
      simp only [Child.step, Option.some.injEq] at hst
      subst hst
      apply hcongr
      · unfold Child.sent_uc; split_ifs <;> simp [Child.emit]
      · unfold Child.sent_uc; split_ifs <;> simp [Child.emit]
  · unfold Child.histogram_ok
    simp [Child.process_begin, Child.init_config, Child.reset_probabilities, Child.emit,
      Child.boot, Child.counters.sum]

/-- Without a reset, the loop of `read_status` stops at the first draw whose candidate the
counters accept. -/
theorem read_status_loop_stops_no_reset (draws : List Nat) (s : Child.State)
    (hsc : s.status_counter % 10 ≠ 0)
    (hd : ∃ r ∈ draws, Child.accepts s r = true) :
    ∃ i s', Child.read_status_loop s draws = some (i, s') := by
  induction draws with
  | nil => obtain ⟨r, hr, _⟩ := hd; simp at hr
  | cons r draws ih =>
    unfold Child.read_status_loop
    by_cases hacc : (s.counter_status.get (r % 4) % 4 ≠ 0 ∧ r % 4 ≠ 3) ∨
        s.counter_status.get 3 % 2 ≠ 0
    · rw [read_status_iter_accept s r hacc]
      exact ⟨_, _, rfl⟩
    · rw [read_status_iter_reject s r hacc, if_neg hsc]
      simp only
      apply ih
      obtain ⟨r', hr', ha'⟩ := hd
      rcases List.mem_cons.1 hr' with h | h
      · subst h
        exact absurd ((accepts_iff s r').1 ha') hacc
      · exact ⟨r', h, ha'⟩

/-- When the draw counted is the tenth of its window, the loop of `read_status` stops at
its second iteration at the latest. -/
theorem read_status_loop_stops_reset (r1 r2 : Nat) (draws : List Nat) (s : Child.State)
    (hsc : s.status_counter % 10 = 0) :
    ∃ i s', Child.read_status_loop s (r1 :: r2 :: draws) = some (i, s') := by
  unfold Child.read_status_loop
  by_cases hacc : (s.counter_status.get (r1 % 4) % 4 ≠ 0 ∧ r1 % 4 ≠ 3) ∨
      s.counter_status.get 3 % 2 ≠ 0
  · rw [read_status_iter_accept s r1 hacc]
    exact ⟨_, _, rfl⟩
  · rw [read_status_iter_reject s r1 hacc, if_pos hsc]
    simp only
    unfold Child.read_status_loop
    rw [read_status_iter_accept (Child.reset_probabilities s) r2
      (Or.inr (by simp [Child.reset_probabilities, Child.counters.get]))]
    exact ⟨_, _, rfl⟩

/-- From a well-formed histogram at the head of the loop, `read_status` stops on every
list of draws in which each of the four candidates occurs. -/
theorem read_status_loop_stops (draws : List Nat) (s : Child.State)
    (hs : Child.loop_ok s) (hd : ∀ k, k < 4 → ∃ r ∈ draws, r % 4 = k) :
    ∃ i s', Child.read_status_loop s draws = some (i, s') := by
  by_cases hsc : s.status_counter % 10 = 0
  · cases draws with
    | nil => obtain ⟨r, hr, _⟩ := hd 0 (by decide); simp at hr
    | cons r1 draws =>
      cases draws with
      | nil =>
        obtain ⟨a, ha, ha'⟩ := hd 0 (by decide)
        obtain ⟨b, hb, hb'⟩ := hd 1 (by decide)
        simp only [List.mem_singleton] at ha hb
        subst ha; subst hb
        omega
      | cons r2 draws => exact read_status_loop_stops_reset r1 r2 draws s hsc
  · obtain ⟨k, hk, hacc⟩ := loop_ok_progress s hs
    obtain ⟨r, hr, hrk⟩ := hd k hk
    refine read_status_loop_stops_no_reset draws s hsc ⟨r, hr, ?_⟩
    rw [accepts_iff] at hacc ⊢
    rw [hrk]
    rw [Nat.mod_eq_of_lt hk] at hacc
    exact hacc

/-- A stream in which each candidate occurs infinitely often has, from every position on, a
finite segment in which each candidate occurs. -/
theorem fair_stream_segment (f : Nat → Nat)
    (hf : ∀ k, k < 4 → ∀ N, ∃ n, N ≤ n ∧ f n % 4 = k) (N : Nat) :
    ∃ L, ∀ k, k < 4 → ∃ r ∈ (List.range L).map (fun n => f (N + n)), r % 4 = k := by
  obtain ⟨n0, h0, g0⟩ := hf 0 (by decide) N
  obtain ⟨n1, h1, g1⟩ := hf 1 (by decide) N
  obtain ⟨n2, h2, g2⟩ := hf 2 (by decide) N
  obtain ⟨n3, h3, g3⟩ := hf 3 (by decide) N
  refine ⟨n0 + n1 + n2 + n3 + 1, ?_⟩
  intro k hk
  have key : ∀ n, N ≤ n → n < N + (n0 + n1 + n2 + n3 + 1) →
      f n ∈ (List.range (n0 + n1 + n2 + n3 + 1)).map (fun n => f (N + n)) := by
    intro n hn hlt
    refine List.mem_map.2 ⟨n - N, List.mem_range.2 (by omega), ?_⟩
    have hn' : N + (n - N) = n := by omega
    rw [hn']
  interval_cases k
  · exact ⟨f n0, key n0 h0 (by omega), g0⟩
  · exact ⟨f n1, key n1 h1 (by omega), g1⟩
  · exact ⟨f n2, key n2 h2 (by omega), g2⟩
  · exact ⟨f n3, key n3 h3 (by omega), g3⟩

end SmartBracelets

namespace SmartBracelets

/-- Every entry of the table `child_status` is one of the four status names. -/
theorem child_status_mem (i : Nat) :
    Child.child_status i ∈ [STANDING, WALKING, RUNNING, FALLING] := by
  unfold Child.child_status
  split <;> simp

/-- C14: on the child in OPERATION, a timer tick in which `read_status` returns the index
`i` builds the payload "INFO:status,X:x,Y:y" with the status name of `i`, one of STANDING,
WALKING, RUNNING, FALLING, keeps it in the message buffer, sends it as exactly one unicast
to the bound peer when the peer address differs from the node's own address and sends
nothing when they are equal; it emits nothing else (no broadcast) and leaves the state, the
peer address and the broadcast channel unchanged. The tick returns exactly when
`read_status` does, and in every state reached from the initial state `read_status`
returns on every list of draws in which each of the four candidates occurs. -/
theorem C14_operation_tick_sends_status_report (conf : Conf) (now : Nat) (s : Child.State)
    (draws : List Nat) (x y : Int) (hs : s.state = STATE_OPERATION) :
    (∀ (i : Nat) (s1 : Child.State), Child.read_status s draws = some (i, s1) →
      ∃ s', Child.state_machine conf now s draws x y = some s' ∧
        Child.child_status i ∈ [STANDING, WALKING, RUNNING, FALLING] ∧
        s'.message = Child.status_message (Child.child_status i) x y ∧
        s'.out = s.out ++
          (if s.addr = conf.linkaddr_node_addr then []
          else [Output.unicast_send s.addr
            (Child.status_message (Child.child_status i) x y)]) ∧
        s'.state = s.state ∧ s'.addr = s.addr ∧ s'.broadcast = s.broadcast) ∧
    (Child.read_status s draws = none → Child.state_machine conf now s draws x y = none) ∧
    (Child.Reachable conf s → (∀ k, k < 4 → ∃ r ∈ draws, r % 4 = k) →
      ∃ i s1, Child.read_status s draws = some (i, s1)) := by
  refine ⟨?_, ?_, ?_⟩
  · intro i s1 hr
    obtain ⟨f1, _, _, _, f5, f6, _, f8⟩ := Child.read_status_frame s s1 draws i hr
    refine ⟨_, child_state_machine_operation conf now s s1 draws x y i hs hr,
      child_status_mem i, rfl, ?_, f1, f5, f6⟩
    simp only [f5, f8]
    by_cases hc : s.addr = conf.linkaddr_node_addr
    · rw [if_pos ((linkaddr_cmp_iff _ _).2 hc), if_pos hc]
      simp
    · rw [if_neg (by rw [linkaddr_cmp_of_ne hc]; decide), if_neg hc]
  · intro hr
    unfold Child.state_machine
    rw [if_neg (by rw [hs]; decide), if_pos hs, hr]
  · intro hreach hd
    unfold Child.read_status
    exact read_status_loop_stops draws _
      (loop_ok_entry s (child_reachable_histogram_ok conf s hreach)) hd

/-- C14 on the child 1.0 paired with the parent 2.0: a tick at time 700 whose first draw is
3 sends "INFO:FALLING,X:12345,Y:6789" to 2.0, after the acknowledgment sent when pairing. -/
theorem C14_operation_tick_sends_status_report_witness :
    (Child.state_machine conf_child_K1 700
        (Child.broadcast_recv conf_child_K1 (Child.process_begin conf_child_K1 0) ⟨2, 0⟩
          "K1".toList) [3, 1] 12345 6789).map (fun s => unicasts s.out) =
      some [(⟨2, 0⟩, STOP_PAIRING), (⟨2, 0⟩, "INFO:FALLING,X:12345,Y:6789".toList)] := by
  obtain ⟨s', h1, _, _, h4, _⟩ := (C14_operation_tick_sends_status_report conf_child_K1 700
    (Child.broadcast_recv conf_child_K1 (Child.process_begin conf_child_K1 0) ⟨2, 0⟩
      "K1".toList) [3, 1] 12345 6789 (by decide)).1 3
    { Child.broadcast_recv conf_child_K1 (Child.process_begin conf_child_K1 0) ⟨2, 0⟩
        "K1".toList with status_counter := 1, counter_status := ⟨1, 1, 1, 2⟩ }
    (by decide)
  rw [h1, Option.map_some', h4]
  decide

end SmartBracelets

namespace SmartBracelets

/-- The unicasts of a trace built in two parts. -/
theorem unicasts_append (a b : List Output) :
    unicasts (a ++ b) = unicasts a ++ unicasts b := by
  induction a with
  | nil => rfl
  | cons o a ih => cases o <;> simp [unicasts, ih]

/-- The broadcasts of a trace built in two parts. -/
theorem broadcasts_append (a b : List Output) :
    broadcasts (a ++ b) = broadcasts a ++ broadcasts b := by
  induction a with
  | nil => rfl
  | cons o a ih => cases o <;> simp [broadcasts, ih]

/-- The parent's `recv_uc` sends no unicast. -/
theorem parent_recv_uc_unicasts (conf : Conf) (now : Nat) (s : Parent.State)
    (frm : linkaddr_t) (payload : Str) :
    unicasts (Parent.recv_uc conf now s frm payload).st.out = unicasts s.out := by
  have hd : ∀ u : Parent.State,
      unicasts (Parent.recv_uc_decode u payload).st.out = unicasts u.out := by
    intro u
    unfold Parent.recv_uc_decode
    simp only
    split
    · simp [Result.st]
    · split
      · simp [Result.st]
      · split
        · simp [Result.st]
        · split_ifs <;> simp [Result.st, Parent.emit, unicasts_append, unicasts]
  unfold Parent.recv_uc
  by_cases h1 : Parent.check_address s frm = 1 ∧ s.state = STATE_OPERATION
  · rw [if_pos h1]
    simp only
    rw [hd]
    simp [Parent.emit, Parent.init, unicasts_append, unicasts]
  · rw [if_neg h1]
    by_cases h2 : s.state = STATE_PAIRING
    · rw [if_pos h2]
      by_cases h3 : payload = STOP_PAIRING
      · simp [h3, Result.st, Parent.emit, unicasts_append, unicasts]
      · simp [h3, Result.st, Parent.emit, unicasts_append, unicasts]
    · rw [if_neg h2]
      simp [Result.st]

/-- On the parent, when no packet comes from the null address, no unicast is sent to the
null address: the only unicast the parent sends is the acknowledgment to the sender of a
broadcast of the key. -/
theorem parent_never_sends_to_null (conf : Conf) (es : List Parent.Event) :
    ∀ (s s' : Parent.State), (∀ e ∈ es, Parent.sender_not_null e = true) →
      (∀ d ∈ unicasts s.out, d.1 ≠ linkaddr_null) →
      Parent.run conf s es = some s' →
      ∀ d ∈ unicasts s'.out, d.1 ≠ linkaddr_null := by
  induction es with
  | nil =>
    intro s s' _ hP h
    simp only [Parent.run, Option.some.injEq] at h
    exact h ▸ hP
  | cons e es ih =>
    intro s s' he hP h
    unfold Parent.run at h
    rcases hst : Parent.step conf s e with _ | s1
    · simp [hst] at h
    · simp only [hst, Option.some_bind] at h
      refine ih s1 s' (fun e' he' => he e' (List.mem_cons_of_mem e he')) ?_ h
      have hq := he e (List.mem_cons_self e es)
      cases e with
      | timer now =>
        simp only [Parent.step, Option.some.injEq] at hst
        subst hst
        unfold Parent.state_machine
        split_ifs
        · simpa [Parent.emit, unicasts_append, unicasts] using hP
        · exact hP
      | broadcast frm payload =>
        simp only [Parent.step, Option.some.injEq] at hst
        subst hst
        have hfrm : frm ≠ linkaddr_null := by
          intro h0
          simp [Parent.sender_not_null, (linkaddr_cmp_iff frm linkaddr_null).2 h0] at hq
        by_cases hk : payload = conf.PRODUCT_KEY
        · subst hk
          rw [Parent.broadcast_recv_key]
          by_cases hn : linkaddr_cmp frm conf.linkaddr_node_addr = true
          · simpa [Parent.start_operation_mode, Parent.emit, unicasts_append, unicasts, hn]
              using hP
          · have hu : unicasts (Parent.start_operation_mode conf
                { Parent.emit s (Output.printf_broadcast_received frm conf.PRODUCT_KEY) with
                  addr := frm }).out = unicasts s.out ++ [(frm, s.message)] := by
              simp [Parent.start_operation_mode, Parent.emit, unicasts_append, unicasts, hn]
            rw [hu]
            intro d hd
            rcases List.mem_append.1 hd with hd | hd
            · exact hP d hd
            · simp only [List.mem_singleton] at hd
              rw [hd]; exact hfrm
        · rw [Parent.broadcast_recv_other conf s frm payload hk]
          simpa [Parent.emit, unicasts_append, unicasts] using hP
      | unicast now frm payload =>
        simp only [Parent.step] at hst
        have hu := parent_recv_uc_unicasts conf now s frm payload
        rcases hr : Parent.recv_uc conf now s frm payload with r | r
        · rw [hr] at hst hu
          simp only [Option.some.injEq] at hst
          subst hst
          simp only [Result.st] at hu
          rw [hu]; exact hP
        · rw [hr] at hst; simp at hst
      | sent dest =>
        simp only [Parent.step, Option.some.injEq] at hst
        subst hst
        unfold Parent.sent_uc
        split_ifs
        · exact hP
        · simpa [Parent.emit, unicasts_append, unicasts] using hP
      | ctimer now =>
        simp only [Parent.step] at hst
        split_ifs at hst
        simp only [Option.some.injEq] at hst
        subst hst
        simpa [Parent.callback, Parent.emit, unicasts_append, unicasts] using hP

/-- C15 (child's half fails): the child 1.0, whose own address is not null, receives in its
initial state the broadcast "WRONG" from node 2.0 and then handles one timer tick. The
peer address is still the null address 0.0, yet the acknowledgment "FOUND" and then the
status report are both sent by unicast to 0.0. -/
theorem C15_child_sends_to_null_address :
    conf_child_K1.linkaddr_node_addr ≠ linkaddr_null ∧
    (⟨2, 0⟩ : linkaddr_t) ≠ linkaddr_null ∧
    "WRONG".toList ≠ conf_child_K1.PRODUCT_KEY ∧
    (Child.run conf_child_K1 (Child.process_begin conf_child_K1 0)
        [Child.Event.broadcast ⟨2, 0⟩ "WRONG".toList,
          Child.Event.timer 640 [0] 5 6]).map (fun s => (s.addr, unicasts s.out)) =
      some (linkaddr_null, [(linkaddr_null, STOP_PAIRING),
        (linkaddr_null, "INFO:STANDING,X:5,Y:6".toList)]) := by
  decide

end SmartBracelets

namespace SmartBracelets

/-- Rejecting iterations do not change whether the draw counted is a multiple of ten, that
is whether the iterations of the call run `reset_probabilities`. -/
theorem reject_all_reset_test (draws : List Nat) :
    ∀ (s t : Child.State), Child.reject_all s draws = some t →
      (t.status_counter % 10 = 0 ↔ s.status_counter % 10 = 0) := by
  induction draws with
  | nil =>
    intro s t h
    simp only [Child.reject_all, Option.some.injEq] at h
    rw [h]
  | cons r draws ih =>
    intro s t h
    unfold Child.reject_all at h
    by_cases hacc : (s.counter_status.get (r % 4) % 4 ≠ 0 ∧ r % 4 ≠ 3) ∨
        s.counter_status.get 3 % 2 ≠ 0
    · rw [read_status_iter_accept s r hacc] at h
      simp at h
    · rw [read_status_iter_reject s r hacc] at h
      simp only at h
      by_cases hsc : s.status_counter % 10 = 0
      · rw [if_pos hsc] at h
        have := ih _ t h
        simp only [Child.reset_probabilities] at this
        simp [this, hsc]
      · rw [if_neg hsc] at h
        exact ih s t h

/-- After `n` calls of `read_status` in a window that began at the baseline, the calls of
`dss` bring the number of calls to `n + dss.length`. -/
theorem read_status_calls_invariant (dss : List (List Nat)) :
    ∀ (s s' : Child.State) (idxs : List Nat) (n : Nat), Child.histogram_ok s →
      s.status_counter = n % 10 →
      Child.read_status_calls s dss = some (idxs, s') →
      Child.histogram_ok s' ∧ s'.status_counter = (n + dss.length) % 10 ∧
        idxs.length = dss.length := by
  induction dss with
  | nil =>
    intro s s' idxs n hok hn h
    simp only [Child.read_status_calls, Option.some.injEq, Prod.mk.injEq] at h
    obtain ⟨rfl, rfl⟩ := h
    exact ⟨hok, by simpa using hn, rfl⟩
  | cons draws dss ih =>
    intro s s' idxs n hok hn h
    unfold Child.read_status_calls at h
    rcases hr : Child.read_status s draws with _ | ⟨i, s1⟩
    · simp [hr] at h
    · simp only [hr] at h
      rcases hc : Child.read_status_calls s1 dss with _ | ⟨is, s2⟩
      · simp [hc] at h
      · simp only [hc, Option.some.injEq, Prod.mk.injEq] at h
        obtain ⟨rfl, rfl⟩ := h
        have hok1 := read_status_histogram_ok s s1 draws i hok hr
        obtain ⟨_, c1, c2⟩ := read_status_call s s1 draws i hr
        have hn1 : s1.status_counter = (n + 1) % 10 := by
          by_cases hsc : (s.status_counter + 1) % 10 = 0
          · rw [(c2 hsc).2]; omega
          · obtain ⟨_, _, g⟩ := c1 hsc
            rw [g]; simp only; omega
        obtain ⟨g1, g2, g3⟩ := ih s1 s2 is (n + 1) hok1 hn1 hc
        refine ⟨g1, ?_, by simp [g3]⟩
        rw [g2, List.length_cons]
        congr 1
        omega

/-- C16: histogram invariant of the status sampler. From the baseline (four counters 1,
draw counter 0), after any number `n` of calls of `read_status` that have returned, with
any draws: one index was returned per call, the draw counter is `n mod 10` and the four
counters sum to `4 + n mod 10`, so that after every tenth call the histogram is the
baseline again. The next call, number `n + 1`, when it returns, has rejected the
candidates of all its iterations but the last, which accepts the index returned; the test
guarding `reset_probabilities` holds in its iterations exactly when `n + 1` is a multiple
of 10; if it is not, the call ends with exactly the counter of the index returned
incremented and the draw counted, and if it is, with the histogram at its baseline. -/
theorem C16_histogram_window_invariant (s0 s : Child.State) (dss : List (List Nat))
    (idxs : List Nat) (hc : s0.counter_status = ⟨1, 1, 1, 1⟩) (hsc : s0.status_counter = 0)
    (h : Child.read_status_calls s0 dss = some (idxs, s)) :
    idxs.length = dss.length ∧
    s.status_counter = dss.length % 10 ∧
    s.counter_status.sum = 4 + dss.length % 10 ∧
    (dss.length % 10 = 0 → s.counter_status = ⟨1, 1, 1, 1⟩ ∧ s.status_counter = 0) ∧
    (∀ (draws : List Nat) (t : Child.State),
      Child.reject_all { s with status_counter := s.status_counter + 1 } draws = some t →
      (t.status_counter % 10 = 0 ↔ (dss.length + 1) % 10 = 0)) ∧
    (∀ (draws : List Nat) (i : Nat) (s' : Child.State),
      Child.read_status s draws = some (i, s') →
      (∃ (pre : List Nat) (r : Nat) (post : List Nat) (t : Child.State),
        draws = pre ++ r :: post ∧
        Child.reject_all { s with status_counter := s.status_counter + 1 } pre = some t ∧
        Child.read_status_iter t r = (i, true, s')) ∧
      ((dss.length + 1) % 10 ≠ 0 →
        s'.counter_status = s.counter_status.incr i ∧
        s'.status_counter = s.status_counter + 1) ∧
      ((dss.length + 1) % 10 = 0 →
        s'.counter_status = ⟨1, 1, 1, 1⟩ ∧ s'.status_counter = 0)) := by
  have hok0 : Child.histogram_ok s0 := by
    unfold Child.histogram_ok
    rw [hc, hsc]
    simp [Child.counters.sum]
  obtain ⟨hok, hn, hlen⟩ := read_status_calls_invariant dss s0 s idxs 0 hok0
    (by rw [hsc]) h
  rw [Nat.zero_add] at hn
  obtain ⟨k1, k2, k3, k4, k5, k6⟩ := hok
  refine ⟨hlen, hn, by rw [k2, hn], ?_, ?_, ?_⟩
  · intro h0
    rw [h0] at hn
    refine ⟨?_, hn⟩
    rw [hn] at k2
    unfold Child.counters.sum at k2
    have e0 : s.counter_status.c0 = 1 := by omega
    have e1 : s.counter_status.c1 = 1 := by omega
    have e2 : s.counter_status.c2 = 1 := by omega
    have e3 : s.counter_status.c3 = 1 := by omega
    cases hcs : s.counter_status with
    | mk a b c d =>
      rw [hcs] at e0 e1 e2 e3
      simp only at e0 e1 e2 e3
      rw [e0, e1, e2, e3]
  · intro draws t ht
    rw [reject_all_reset_test draws _ t ht]
    simp only
    omega
  · intro draws i s' hr
    obtain ⟨_, c1, c2⟩ := read_status_call s s' draws i hr
    refine ⟨?_, ?_, ?_⟩
    · unfold Child.read_status at hr
      exact read_status_loop_accepting draws _ s' i hr
    · intro hne
      obtain ⟨_, _, g⟩ := c1 (by omega)
      rw [g]
      exact ⟨rfl, rfl⟩
    · intro h10
      exact c2 (by omega)

/-- C16 on ten calls from the initial state of the child: after the tenth the histogram is
the baseline again. -/
theorem C16_histogram_window_invariant_witness :
    (Child.process_begin conf_child_K1 0).counter_status = ⟨1, 1, 1, 1⟩ ∧
    (Child.process_begin conf_child_K1 0).status_counter = 10 % 10 ∧
    Child.read_status_calls (Child.process_begin conf_child_K1 0)
        [[0], [0], [0], [3], [1], [1], [1], [2], [2], [0, 3, 1, 2]] =
      some ([0, 0, 0, 3, 1, 1, 1, 2, 2, 3], Child.process_begin conf_child_K1 0) :=
  have hrun : Child.read_status_calls (Child.process_begin conf_child_K1 0)
        [[0], [0], [0], [3], [1], [1], [1], [2], [2], [0, 3, 1, 2]] =
      some ([0, 0, 0, 3, 1, 1, 1, 2, 2, 3], Child.process_begin conf_child_K1 0) := by
    decide
  have h := C16_histogram_window_invariant (Child.process_begin conf_child_K1 0)
    (Child.process_begin conf_child_K1 0)
    [[0], [0], [0], [3], [1], [1], [1], [2], [2], [0, 3, 1, 2]]
    [0, 0, 0, 3, 1, 1, 1, 2, 2, 3] (by decide) (by decide) hrun
  ⟨(h.2.2.2.1 (by decide)).1, h.2.1, hrun⟩

end SmartBracelets

namespace SmartBracelets

/-- Consecutive timer ticks of the child in PAIRING: every tick broadcasts the key packet,
and the attempt counter, an 8-bit variable, is incremented modulo 256. -/
theorem child_pairing_ticks (conf : Conf) (es : List Child.Event) :
    ∀ (s : Child.State), s.state = STATE_PAIRING → s.connect_attempt < 256 →
      (∀ e ∈ es, Child.is_timer e = true) →
      ∃ s', Child.run conf s es = some s' ∧ s'.state = STATE_PAIRING ∧ s'.addr = s.addr ∧
        broadcasts s'.out = broadcasts s.out ++ List.replicate es.length (key_packet conf) ∧
        unicasts s'.out = unicasts s.out ∧
        s'.connect_attempt = (s.connect_attempt + es.length) % 256 := by
  induction es with
  | nil =>
    intro s hs hc _
    exact ⟨s, rfl, hs, rfl, by simp, rfl, by simp [Nat.mod_eq_of_lt hc]⟩
  | cons e es ih =>
    intro s hs hc he
    cases e with
    | timer now draws x y =>
      have hstep := child_state_machine_pairing conf now s draws x y hs
      obtain ⟨s', h1, h2, h3, h4, h5, h6⟩ := ih
        { s with
          out := s.out ++ [Output.broadcast_send (key_packet conf),
            Output.printf_searching s.connect_attempt conf.PRODUCT_KEY],
          connect_attempt := (s.connect_attempt + 1) % 256,
          et_pairing := some (timer_set now (conf.CLOCK_SECOND * PAIRING_TIMER)) }
        hs (Nat.mod_lt _ (by decide))
        (fun e' he' => he e' (List.mem_cons_of_mem _ he'))
      refine ⟨s', ?_, h2, h3, ?_, ?_, ?_⟩
      · simp only [Child.run, Child.step, hstep, Option.some_bind]
        exact h1
      · rw [h4]
        simp [broadcasts_append, broadcasts, List.replicate_succ]
      · rw [h5]
        simp [unicasts_append, unicasts]
      · rw [h6]
        simp only [List.length_cons]
        omega
    | broadcast frm payload =>
      exact absurd (he _ (List.mem_cons_self _ _)) (by simp [Child.is_timer])
    | unicast frm payload =>
      exact absurd (he _ (List.mem_cons_self _ _)) (by simp [Child.is_timer])
    | sent dest =>
      exact absurd (he _ (List.mem_cons_self _ _)) (by simp [Child.is_timer])

/-- Consecutive timer ticks of the parent in PAIRING: every tick broadcasts the key packet,
and the attempt counter, an 8-bit variable, is incremented modulo 256. -/
theorem parent_pairing_ticks (conf : Conf) (es : List Parent.Event) :
    ∀ (s : Parent.State), s.state = STATE_PAIRING → s.connect_attempt < 256 →
      (∀ e ∈ es, Parent.is_timer e = true) →
      ∃ s', Parent.run conf s es = some s' ∧ s'.state = STATE_PAIRING ∧ s'.addr = s.addr ∧
        broadcasts s'.out = broadcasts s.out ++ List.replicate es.length (key_packet conf) ∧
        unicasts s'.out = unicasts s.out ∧
        s'.connect_attempt = (s.connect_attempt + es.length) % 256 := by
  induction es with
  | nil =>
    intro s hs hc _
    exact ⟨s, rfl, hs, rfl, by simp, rfl, by simp [Nat.mod_eq_of_lt hc]⟩
  | cons e es ih =>
    intro s hs hc he
    cases e with
    | timer now =>
      have hstep : Parent.state_machine conf now s =
          { s with
            out := s.out ++ [Output.broadcast_send (key_packet conf),
              Output.printf_searching s.connect_attempt conf.PRODUCT_KEY],
            connect_attempt := (s.connect_attempt + 1) % 256,
            et_pairing := some (timer_set now (conf.CLOCK_SECOND * PAIRING_TIMER)) } := by
        unfold Parent.state_machine
        rw [if_pos hs]
        simp [Parent.emit]
      obtain ⟨s', h1, h2, h3, h4, h5, h6⟩ := ih (Parent.state_machine conf now s)
        (by rw [hstep]; simpa using hs)
        (by rw [hstep]; exact Nat.mod_lt _ (by decide))
        (fun e' he' => he e' (List.mem_cons_of_mem _ he'))
      rw [hstep] at h3 h4 h5 h6
      refine ⟨s', ?_, h2, h3, ?_, ?_, ?_⟩
      · simp only [Parent.run, Parent.step, Option.some_bind]
        exact h1
      · rw [h4]
        simp [broadcasts_append, broadcasts, List.replicate_succ]
      · rw [h5]
        simp [unicasts_append, unicasts]
      · rw [h6]
        simp only [List.length_cons]
        omega
    | broadcast frm payload =>
      exact absurd (he _ (List.mem_cons_self _ _)) (by simp [Parent.is_timer])
    | unicast now frm payload =>
      exact absurd (he _ (List.mem_cons_self _ _)) (by simp [Parent.is_timer])
    | sent dest =>
      exact absurd (he _ (List.mem_cons_self _ _)) (by simp [Parent.is_timer])
    | ctimer now =>
      exact absurd (he _ (List.mem_cons_self _ _)) (by simp [Parent.is_timer])

end SmartBracelets

namespace SmartBracelets

/-- C17 (fails as stated): from its initial state the child 1.0 handles 255 consecutive
timer ticks in PAIRING. The attempt counter `connect_attempt` is an 8-bit variable: it is
then 0, not its initial value 1 plus 255. -/
theorem C17_attempt_counter_wraps_at_256 :
    (Child.process_begin conf_child_K1 0).state = STATE_PAIRING ∧
    (Child.process_begin conf_child_K1 0).connect_attempt = 1 ∧
    (Child.run conf_child_K1 (Child.process_begin conf_child_K1 0)
        (List.replicate 255 (Child.Event.timer 0 [] 0 0))).map
      (fun s => (s.state, s.connect_attempt)) = some (STATE_PAIRING, 0) ∧
    1 + 255 ≠ 0 := by
  obtain ⟨s', h1, h2, _, _, _, h6⟩ := child_pairing_ticks conf_child_K1
    (List.replicate 255 (Child.Event.timer 0 [] 0 0))
    (Child.process_begin conf_child_K1 0) (by decide) (by decide)
    (fun e he => by rw [List.eq_of_mem_replicate he]; rfl)
  refine ⟨by decide, by decide, ?_, by decide⟩
  rw [h1, Option.map_some', h2, h6, List.length_replicate]
  rfl

/-- C17 (amended): for both roles, from a state in PAIRING whose attempt counter is an
8-bit value, `n` consecutive timer ticks with no reception in between are all handled,
emit exactly `n` broadcasts, each carrying the first `KEY_DIMENSION` bytes of the SharedKey
(the whole key when it has at most `KEY_DIMENSION` bytes), send no unicast, leave the state
PAIRING and the peer address unchanged, and leave the attempt counter at its earlier value
plus `n` modulo 256; from the initial state that is `(1 + n) mod 256`. There is no limit to
the number of ticks. -/
theorem C17_pairing_ticks_broadcast_key (confC confP : Conf) (sc : Child.State)
    (sp : Parent.State) (esC : List Child.Event) (esP : List Parent.Event)
    (hsc : sc.state = STATE_PAIRING) (hcc : sc.connect_attempt < 256)
    (hec : ∀ e ∈ esC, Child.is_timer e = true)
    (hsp : sp.state = STATE_PAIRING) (hcp : sp.connect_attempt < 256)
    (hep : ∀ e ∈ esP, Parent.is_timer e = true) :
    (∃ sc', Child.run confC sc esC = some sc' ∧ sc'.state = STATE_PAIRING ∧
      sc'.addr = sc.addr ∧
      broadcasts sc'.out = broadcasts sc.out ++ List.replicate esC.length (key_packet confC) ∧
      unicasts sc'.out = unicasts sc.out ∧
      sc'.connect_attempt = (sc.connect_attempt + esC.length) % 256) ∧
    (∃ sp', Parent.run confP sp esP = some sp' ∧ sp'.state = STATE_PAIRING ∧
      sp'.addr = sp.addr ∧
      broadcasts sp'.out = broadcasts sp.out ++ List.replicate esP.length (key_packet confP) ∧
      unicasts sp'.out = unicasts sp.out ∧
      sp'.connect_attempt = (sp.connect_attempt + esP.length) % 256) ∧
    (∀ conf : Conf, conf.PRODUCT_KEY.length ≤ conf.KEY_DIMENSION →
      key_packet conf = conf.PRODUCT_KEY) ∧
    (∀ now, (Child.process_begin confC now).state = STATE_PAIRING ∧
      (Child.process_begin confC now).connect_attempt = 1 ∧
      (Parent.process_begin confP now).state = STATE_PAIRING ∧
      (Parent.process_begin confP now).connect_attempt = 1) := by
  refine ⟨child_pairing_ticks confC esC sc hsc hcc hec,
    parent_pairing_ticks confP esP sp hsp hcp hep, ?_, ?_⟩
  · intro conf h
    unfold key_packet
    exact List.take_of_length_le h
  · intro now
    simp [Child.process_begin, Child.init_config, Child.reset_probabilities, Child.emit,
      Child.boot, Parent.process_begin, Parent.init_config, Parent.emit, Parent.boot]

/-- C17 (amended) on three ticks of the child 1.0 and two ticks of the parent 2.0 from their
initial states, with key "K1". -/
theorem C17_pairing_ticks_broadcast_key_witness :
    (Child.run conf_child_K1 (Child.process_begin conf_child_K1 0)
        [Child.Event.timer 640 [] 0 0, Child.Event.timer 1280 [] 0 0,
          Child.Event.timer 1920 [] 0 0]).map
      (fun s => (broadcasts s.out, unicasts s.out, s.connect_attempt)) =
      some (["K1".toList, "K1".toList, "K1".toList], [], 4) ∧
    (Parent.run conf_parent_K1 (Parent.process_begin conf_parent_K1 0)
        [Parent.Event.timer 640, Parent.Event.timer 1280]).map
      (fun s => (broadcasts s.out, unicasts s.out, s.connect_attempt)) =
      some (["K1".toList, "K1".toList], [], 3) := by
  obtain ⟨⟨sc', c1, _, _, c4, c5, c6⟩, ⟨sp', p1, _, _, p4, p5, p6⟩, _, _⟩ :=
    C17_pairing_ticks_broadcast_key conf_child_K1 conf_parent_K1
      (Child.process_begin conf_child_K1 0) (Parent.process_begin conf_parent_K1 0)
      [Child.Event.timer 640 [] 0 0, Child.Event.timer 1280 [] 0 0,
        Child.Event.timer 1920 [] 0 0]
      [Parent.Event.timer 640, Parent.Event.timer 1280]
      (by decide) (by decide) (by decide) (by decide) (by decide) (by decide)
  rw [c1, p1, Option.map_some', Option.map_some', c4, c5, c6, p4, p5, p6]
  exact ⟨by decide, by decide⟩

end SmartBracelets

namespace SmartBracelets

/-- Incrementing the counter of a non-FALLING index adds one to it and leaves the FALLING
counter alone. -/
theorem counters_incr_get (c : Child.counters) (i : Nat) (hi : i < 3) :
    (c.incr i).get i = c.get i + 1 ∧ (c.incr i).c3 = c.c3 := by
  interval_cases i <;> simp [Child.counters.incr, Child.counters.get]

/-- A call of `read_status` without reset on a histogram whose FALLING counter is even: the
index returned is not FALLING, its counter was not a multiple of 4 and is incremented, and
the FALLING counter stays even. -/
theorem read_status_capped (s s' : Child.State) (draws : List Nat) (i : Nat)
    (h3 : s.counter_status.c3 % 2 = 0) (hsc : (s.status_counter + 1) % 10 ≠ 0)
    (h : Child.read_status s draws = some (i, s')) :
    i < 3 ∧ s.counter_status.get i % 4 ≠ 0 ∧
      s'.counter_status.get i = s.counter_status.get i + 1 ∧
      s'.counter_status.c3 = s.counter_status.c3 ∧
      s'.status_counter = s.status_counter + 1 := by
  obtain ⟨hi, h1, _⟩ := read_status_call s s' draws i h
  obtain ⟨hacc, _, hs'⟩ := h1 hsc
  rw [accepts_iff, Nat.mod_eq_of_lt hi] at hacc
  have h3' : ¬ s.counter_status.get 3 % 2 ≠ 0 := by
    simp only [Child.counters.get]; omega
  obtain ⟨g1, g2⟩ := hacc.resolve_right h3'
  have hi3 : i < 3 := by omega
  obtain ⟨e1, e2⟩ := counters_incr_get s.counter_status i hi3
  rw [hs']
  exact ⟨hi3, g1, e1, e2, rfl⟩

/-- C18 (fails as stated): from the baseline, four consecutive calls of `read_status`, each
drawing the candidate 0, all return STANDING. At the fourth call, still in the first
window (3 draws counted), the counter of STANDING is 4, a multiple of 4, and the candidate
is accepted all the same, the FALLING counter being odd. -/
theorem C18_standing_returned_four_times_in_a_row :
    Child.child_status 0 = STANDING ∧
    (Child.read_status_calls (Child.process_begin conf_child_K1 0)
        [[0], [0], [0], [0]]).map (fun p => p.1) = some [0, 0, 0, 0] ∧
    (Child.read_status_calls (Child.process_begin conf_child_K1 0)
        [[0], [0], [0]]).map
      (fun p => (p.2.counter_status, p.2.status_counter, Child.accepts p.2 0)) =
      some (⟨4, 1, 1, 1⟩, 3, true) := by
  decide

/-- C18 (amended): the loop body of `read_status` accepts a candidate when its own counter
is not a multiple of 4 and it is not FALLING, or else when the FALLING counter is odd; so a
non-FALLING candidate whose counter is a multiple of 4 is rejected exactly while the
FALLING counter is even, and accepted while it is odd, as at the baseline. When the
FALLING counter is even and at most 5 draws of the histogram window have been counted, so
that the next four calls are all among the first nine draws of the window and none of them
is the tenth, on which the histogram is reset, the four statuses these calls return are not
all the same, and none of them is FALLING. The tenth draw is excepted with reason: the
draws FALLING, WALKING three times, RUNNING twice from the baseline leave the counters
1, 4, 3, 2 with 6 draws counted, and the draws 7 to 10 can then all return STANDING. -/
theorem C18_cap_holds_while_falling_counter_even (s s' : Child.State)
    (d1 d2 d3 d4 : List Nat) (i1 i2 i3 i4 : Nat)
    (h3 : s.counter_status.c3 % 2 = 0) (hw : s.status_counter + 4 ≤ 9)
    (h : Child.read_status_calls s [d1, d2, d3, d4] = some ([i1, i2, i3, i4], s')) :
    (∀ (u : Child.State) (r : Nat), Child.accepts u r = true ↔
      ((u.counter_status.get (r % 4) % 4 ≠ 0 ∧ r % 4 ≠ 3) ∨
        u.counter_status.get 3 % 2 ≠ 0)) ∧
    (∀ (u : Child.State) (r : Nat), r % 4 ≠ 3 → u.counter_status.get (r % 4) % 4 = 0 →
      (Child.accepts u r = true ↔ u.counter_status.get 3 % 2 ≠ 0)) ∧
    ¬ (i1 = i2 ∧ i2 = i3 ∧ i3 = i4) ∧
    (i1 < 3 ∧ i2 < 3 ∧ i3 < 3 ∧ i4 < 3) ∧
    (Child.read_status_calls (Child.process_begin conf_child_K1 0)
        [[3], [1], [1], [1], [2], [2]]).map
      (fun p => (p.1, p.2.counter_status, p.2.status_counter)) =
      some ([3, 1, 1, 1, 2, 2], ⟨1, 4, 3, 2⟩, 6) ∧
    (Child.read_status_calls (Child.process_begin conf_child_K1 0)
        [[3], [1], [1], [1], [2], [2], [0], [0], [0], [0, 0]]).map (fun p => p.1) =
      some [3, 1, 1, 1, 2, 2, 0, 0, 0, 0] := by
  refine ⟨accepts_iff, ?_, ?_⟩
  · intro u r hr h0
    rw [accepts_iff]
    constructor
    · intro hacc
      rcases hacc with ⟨g, _⟩ | g
      · exact absurd h0 g
      · exact g
    · intro g; exact Or.inr g
  · simp only [Child.read_status_calls] at h
    rcases r1 : Child.read_status s d1 with _ | ⟨j1, s1⟩
    · simp [r1] at h
    · simp only [r1] at h
      rcases r2 : Child.read_status s1 d2 with _ | ⟨j2, s2⟩
      · simp [r2] at h
      · simp only [r2] at h
        rcases r3 : Child.read_status s2 d3 with _ | ⟨j3, s3⟩
        · simp [r3] at h
        · simp only [r3] at h
          rcases r4 : Child.read_status s3 d4 with _ | ⟨j4, s4⟩
          · simp [r4] at h
          · simp only [r4, Option.some.injEq, Prod.mk.injEq, List.cons.injEq] at h
            obtain ⟨⟨rfl, rfl, rfl, rfl, _⟩, _⟩ := h
            obtain ⟨a1, a2, a3, a4, a5⟩ := read_status_capped s s1 d1 j1 h3 (by omega) r1
            obtain ⟨b1, b2, b3, b4, b5⟩ := read_status_capped s1 s2 d2 j2
              (by rw [a4]; exact h3) (by omega) r2
            obtain ⟨c1, c2, c3, c4, c5⟩ := read_status_capped s2 s3 d3 j3
              (by rw [b4, a4]; exact h3) (by omega) r3
            obtain ⟨e1, e2, _, _, _⟩ := read_status_capped s3 s4 d4 j4
              (by rw [c4, b4, a4]; exact h3) (by omega) r4
            refine ⟨?_, ⟨a1, b1, c1, e1⟩, by decide, by decide⟩
            rintro ⟨rfl, rfl, rfl⟩
            rw [a3] at b2 b3
            rw [b3] at c2 c3
            rw [c3] at e2
            omega

/-- C18 (amended) on the child after one call that returned FALLING: the next four calls
return STANDING three times, then reject it and return WALKING. -/
theorem C18_cap_holds_while_falling_counter_even_witness :
    Child.read_status_calls
        { Child.process_begin conf_child_K1 0 with
          counter_status := ⟨1, 1, 1, 2⟩, status_counter := 1 }
        [[0], [0], [0], [0, 1]] =
      some ([0, 0, 0, 1],
        { Child.process_begin conf_child_K1 0 with
          counter_status := ⟨4, 2, 1, 2⟩, status_counter := 5 }) ∧
    ¬ ((0 : Nat) = 0 ∧ (0 : Nat) = 0 ∧ (0 : Nat) = 1) :=
  have hrun : Child.read_status_calls
        { Child.process_begin conf_child_K1 0 with
          counter_status := ⟨1, 1, 1, 2⟩, status_counter := 1 }
        [[0], [0], [0], [0, 1]] =
      some ([0, 0, 0, 1],
        { Child.process_begin conf_child_K1 0 with
          counter_status := ⟨4, 2, 1, 2⟩, status_counter := 5 }) := by decide
  ⟨hrun, (C18_cap_holds_while_falling_counter_even _ _ [0] [0] [0] [0, 1] 0 0 0 1
    (by decide) (by decide) hrun).2.2.1⟩

end SmartBracelets

namespace SmartBracelets

/-- Iterations that all reject are skipped by the loop of `read_status`. -/
theorem read_status_loop_skip (pre : List Nat) :
    ∀ (s t : Child.State) (rest : List Nat), Child.reject_all s pre = some t →
      Child.read_status_loop s (pre ++ rest) = Child.read_status_loop t rest := by
  induction pre with
  | nil =>
    intro s t rest h
    simp only [Child.reject_all, Option.some.injEq] at h
    rw [h]; rfl
  | cons r pre ih =>
    intro s t rest h
    unfold Child.reject_all at h
    rcases hit : Child.read_status_iter s r with ⟨idx, v, s1⟩
    rw [hit] at h
    cases v with
    | true => simp at h
    | false =>
      simp only at h
      rw [List.cons_append, Child.read_status_loop, hit]
      exact ih s1 t rest h

/-- The index `read_status` returns is the candidate drawn in the accepting iteration,
whichever decomposition of the draws into rejecting iterations and an accepting one is
taken. -/
theorem read_status_returns_candidate (s s' : Child.State) (draws pre post : List Nat)
    (r i : Nat) (t : Child.State) (h : Child.read_status s draws = some (i, s'))
    (hd : draws = pre ++ r :: post)
    (hrej : Child.reject_all { s with status_counter := s.status_counter + 1 } pre = some t)
    (hacc : Child.accepts t r = true) : i = r % 4 := by
  unfold Child.read_status at h
  rw [hd, read_status_loop_skip pre _ t (r :: post) hrej] at h
  unfold Child.read_status_loop at h
  rw [read_status_iter_accept t r ((accepts_iff t r).1 hacc)] at h
  simp only [Option.some.injEq, Prod.mk.injEq] at h
  exact h.1.symm

/-- C19 (the last part fails): there is no state, reachable or not, and no list of draws
for which the status `read_status` returns differs from the status of the candidate drawn
in the accepting iteration, the iteration reached after rejecting iterations only and
that accepts its candidate. -/
theorem C19_returned_status_never_differs_from_candidate :
    ¬ ∃ (s s' : Child.State) (draws pre post : List Nat) (r i : Nat) (t : Child.State),
      Child.read_status s draws = some (i, s') ∧ draws = pre ++ r :: post ∧
      Child.reject_all { s with status_counter := s.status_counter + 1 } pre = some t ∧
      Child.accepts t r = true ∧
      Child.child_status i ≠ Child.child_status (r % 4) := by
  rintro ⟨s, s', draws, pre, post, r, i, t, h, hd, hrej, hacc, hne⟩
  exact hne (by rw [read_status_returns_candidate s s' draws pre post r i t h hd hrej hacc])

/-- C19 (amended): in `read_status` the test of the FALLING counter is reached whenever the
first test fails to accept, whether or not the candidate drawn is FALLING: a candidate the
first test does not accept is accepted exactly when the FALLING counter is odd. As a
result, for a state reached from the initial state and a stream of draws, a non-FALLING
candidate whose own counter is a multiple of 4 is accepted (STANDING with counter 4, after
three draws of it, on the child 1.0 paired with 2.0). The status returned is always that
of the candidate drawn in the accepting iteration, and the counter incremented in that
iteration is that candidate's. -/
theorem C19_falling_test_decides_for_every_candidate :
    (∀ (s : Child.State) (r : Nat),
      ¬ (s.counter_status.get (r % 4) % 4 ≠ 0 ∧ r % 4 ≠ 3) →
      (Child.accepts s r = true ↔ s.counter_status.get 3 % 2 ≠ 0)) ∧
    (∃ (s s' : Child.State), Child.Reachable conf_child_K1 s ∧
      s.counter_status.get 0 % 4 = 0 ∧ s.counter_status.get 3 % 2 ≠ 0 ∧
      Child.read_status s [0] = some (0, s') ∧ Child.child_status 0 = STANDING ∧
      s'.counter_status = s.counter_status.incr 0) ∧
    (∀ (s s' : Child.State) (draws : List Nat) (i : Nat),
      Child.read_status s draws = some (i, s') →
      ∃ (pre : List Nat) (r : Nat) (post : List Nat) (t : Child.State),
        draws = pre ++ r :: post ∧
        Child.reject_all { s with status_counter := s.status_counter + 1 } pre = some t ∧
        Child.accepts t r = true ∧ i = r % 4 ∧
        s' = (if t.status_counter % 10 = 0 then
            Child.reset_probabilities
              { t with counter_status := t.counter_status.incr (r % 4) }
          else { t with counter_status := t.counter_status.incr (r % 4) })) := by
  refine ⟨?_, ?_, ?_⟩
  · intro s r h1
    rw [accepts_iff]
    exact ⟨fun h => h.resolve_left h1, fun h => Or.inr h⟩
  · have hfacts : (Child.run conf_child_K1 (Child.process_begin conf_child_K1 0)
        [Child.Event.broadcast ⟨2, 0⟩ "K1".toList, Child.Event.timer 700 [0] 1 2,
          Child.Event.timer 1980 [0] 3 4, Child.Event.timer 3260 [0] 5 6]).map
        (fun s => (s.counter_status, s.status_counter)) = some (⟨4, 1, 1, 1⟩, 3) := by
      decide
    rcases hrun : Child.run conf_child_K1 (Child.process_begin conf_child_K1 0)
        [Child.Event.broadcast ⟨2, 0⟩ "K1".toList, Child.Event.timer 700 [0] 1 2,
          Child.Event.timer 1980 [0] 3 4, Child.Event.timer 3260 [0] 5 6] with _ | s
    · rw [hrun] at hfacts; simp at hfacts
    · rw [hrun] at hfacts
      simp only [Option.map_some', Option.some.injEq, Prod.mk.injEq] at hfacts
      obtain ⟨hcs, hsc⟩ := hfacts
      refine ⟨s,
        { s with
          status_counter := s.status_counter + 1
          counter_status := s.counter_status.incr 0 },
        ⟨0, _, hrun⟩, ?_, ?_, ?_, rfl, rfl⟩
      · rw [hcs]; decide
      · rw [hcs]; decide
      · unfold Child.read_status Child.read_status_loop
        rw [read_status_iter_accept _ 0 (Or.inr (by simp only [hcs]; decide))]
        rw [if_neg (by simp only [hsc]; decide)]
  · intro s s' draws i h
    have h' := h
    unfold Child.read_status at h'
    obtain ⟨pre, r, post, t, hd, hrej, hit⟩ := read_status_loop_accepting draws _ s' i h'
    have hidx := read_status_iter_index t r
    rw [hit] at hidx
    simp only at hidx
    have hacc : Child.accepts t r = true := by
      unfold Child.accepts; rw [hit]
    refine ⟨pre, r, post, t, hd, hrej, hacc, hidx, ?_⟩
    rw [read_status_iter_accept t r ((accepts_iff t r).1 hacc)] at hit
    simp only [Prod.mk.injEq] at hit
    exact hit.2.2.symm

end SmartBracelets

namespace SmartBracelets

/-- C20: the rejection loop of `read_status` can always make progress. In every state
reached from the initial state, at the start of a call and at the head of the loop after
any number of rejecting iterations, the loop body accepts at least one of the four
candidates. Hence `read_status` returns on every list of draws in which each of the four
candidates occurs, and so on every stream of draws in which each candidate occurs
infinitely often, from whatever position of the stream the call starts. -/
theorem C20_read_status_loop_never_stuck (conf : Conf) (s : Child.State)
    (hr : Child.Reachable conf s) :
    (∃ i, i < 4 ∧ Child.accepts s i = true) ∧
    (∀ t, Child.in_loop conf t → ∃ i, i < 4 ∧ Child.accepts t i = true) ∧
    (∀ draws : List Nat, (∀ k, k < 4 → ∃ r ∈ draws, r % 4 = k) →
      ∃ i s', Child.read_status s draws = some (i, s')) ∧
    (∀ f : Nat → Nat, (∀ k, k < 4 → ∀ N, ∃ n, N ≤ n ∧ f n % 4 = k) →
      ∀ N, ∃ L i s',
        Child.read_status s ((List.range L).map (fun n => f (N + n))) = some (i, s')) := by
  have hok := child_reachable_histogram_ok conf s hr
  have hterm : ∀ draws : List Nat, (∀ k, k < 4 → ∃ r ∈ draws, r % 4 = k) →
      ∃ i s', Child.read_status s draws = some (i, s') := by
    intro draws hd
    unfold Child.read_status
    exact read_status_loop_stops draws _ (loop_ok_entry s hok) hd
  refine ⟨?_, ?_, hterm, ?_⟩
  · obtain ⟨i, hi, hacc⟩ := loop_ok_progress _ (loop_ok_entry s hok)
    refine ⟨i, hi, ?_⟩
    rw [← hacc]
    exact (accepts_counters s { s with status_counter := s.status_counter + 1 } rfl i).symm
  · rintro t ⟨s0, draws, hr0, hrej⟩
    exact loop_ok_progress t (reject_all_loop_ok draws _ t
      (loop_ok_entry s0 (child_reachable_histogram_ok conf s0 hr0)) hrej)
  · intro f hf N
    obtain ⟨L, hL⟩ := fair_stream_segment f hf N
    obtain ⟨i, s', h⟩ := hterm _ hL
    exact ⟨L, i, s', h⟩

/-- C20 on the child 1.0 just paired with the parent 2.0: the call of `read_status` returns
on the draws 0, 1, 2, 3. -/
theorem C20_read_status_loop_never_stuck_witness :
    ∃ i s', Child.read_status
      (Child.broadcast_recv conf_child_K1 (Child.process_begin conf_child_K1 0) ⟨2, 0⟩
        "K1".toList) [0, 1, 2, 3] = some (i, s') :=
  (C20_read_status_loop_never_stuck conf_child_K1
    (Child.broadcast_recv conf_child_K1 (Child.process_begin conf_child_K1 0) ⟨2, 0⟩
      "K1".toList)
    ⟨0, [Child.Event.broadcast ⟨2, 0⟩ "K1".toList], by decide⟩).2.2.1 [0, 1, 2, 3]
    (by decide)

end SmartBracelets
